import Mathlib

/-!
Verification development for the Tracker_CUxS per-dwell radar tracking
pipeline.  The C++ sources are shallowly embedded over exact rational
arithmetic (`ℚ` stands for `double`; the embedding is exact-arithmetic, so
floating-point rounding is abstracted away, while every branch, threshold
and loop of the source is kept).  Fixed-dimension vectors and matrices are
total functions out of `Fin`.

Conventions:
* `double` literals such as `1e-30` become the exact rationals `1/10^30`.
* transcendental kernels (`std::exp`, `std::log`, `std::sqrt`,
  `std::pow(10, ·)`) are passed in as explicit function parameters, exactly
  as the C++ sources treat the motion models behind a virtual interface;
  theorems assume only what the claims need of them (e.g. nonnegativity of
  `exp`).
* C++ `std::vector` becomes `List`, `std::set` membership becomes list
  membership, `int` indices become `ℕ` (with `-1` sentinels becoming
  `Option ℕ`).
-/

attribute [local semireducible] Rat.mul Rat.inv Rat.add Rat.sub Rat.ofScientific

namespace CUAS

/-! ## Fixed-dimension linear algebra (src/include/common/matrix_ops.h) -/

abbrev Vec3 := Fin 3 → ℚ
abbrev Mat3 := Fin 3 → Fin 3 → ℚ
abbrev Vec9 := Fin 9 → ℚ
abbrev Mat9 := Fin 9 → Fin 9 → ℚ
/-- 3×9 measurement-to-state matrix type (`MeasStateMatrix`). -/
abbrev MeasStateMat := Fin 3 → Fin 9 → ℚ
/-- 9×3 matrix type (`P·Hᵀ` and the Kalman gain). -/
abbrev StateMeasMat := Fin 9 → Fin 3 → ℚ

def stateZero : Vec9 := fun _ => 0

def matZero : Mat9 := fun _ _ => 0

def matIdentity : Mat9 := fun i j => if i = j then 1 else 0

namespace mat

/-- cuas::mat::add on 9-vectors. -/
def add (a b : Vec9) : Vec9 := fun i => a i + b i

/-- cuas::mat::sub on 9-vectors. -/
def sub (a b : Vec9) : Vec9 := fun i => a i - b i

/-- cuas::mat::scale on 9-vectors. -/
def scale (a : Vec9) (s : ℚ) : Vec9 := fun i => a i * s

/-- cuas::mat::addMat on 9×9 matrices. -/
def addMat (A B : Mat9) : Mat9 := fun i j => A i j + B i j

/-- cuas::mat::subMat on 9×9 matrices. -/
def subMat (A B : Mat9) : Mat9 := fun i j => A i j - B i j

/-- cuas::mat::scaleMat on 9×9 matrices. -/
def scaleMat (A : Mat9) (s : ℚ) : Mat9 := fun i j => A i j * s

/-- cuas::mat::multiply: 9×9 product.  The source skips inner terms whose
left factor has magnitude ≤ 1e-15 (a sparsity shortcut), so the embedding
keeps that branch. -/
def multiply (A B : Mat9) : Mat9 := fun i j =>
  Finset.univ.sum fun k => if |A i k| > (1 : ℚ)/10^15 then A i k * B k j else 0

/-- cuas::mat::outerProduct of two 9-vectors. -/
def outerProduct (a b : Vec9) : Mat9 := fun i j => a i * b j

/-- cuas::mat::measFromState: `H·x`, 3×9 times 9-vector. -/
def measFromState (H : MeasStateMat) (x : Vec9) : Vec3 := fun i =>
  Finset.univ.sum fun j => H i j * x j

/-- cuas::mat::hpht: `H·P·Hᵀ` computed as in the source, first
`temp = H·P` and then `temp·Hᵀ`. -/
def hpht (H : MeasStateMat) (P : Mat9) : Mat3 :=
  let temp : MeasStateMat := fun i j => Finset.univ.sum fun k => H i k * P k j
  fun i j => Finset.univ.sum fun k => temp i k * H j k

/-- cuas::mat::pht: `P·Hᵀ`, a 9×3 matrix. -/
def pht (P : Mat9) (H : MeasStateMat) : StateMeasMat := fun i j =>
  Finset.univ.sum fun k => P i k * H j k

/-- cuas::mat::kalmanGain: `K = (P·Hᵀ)·S⁻¹`. -/
def kalmanGain (PHt : StateMeasMat) (Sinv : Mat3) : StateMeasMat := fun i j =>
  Finset.univ.sum fun k => PHt i k * Sinv k j

/-- cuas::mat::kalmanCorrection: `K·innov`. -/
def kalmanCorrection (K : StateMeasMat) (innov : Vec3) : Vec9 := fun i =>
  Finset.univ.sum fun j => K i j * innov j

/-- cuas::mat::kh: `K·H`, a 9×9 matrix. -/
def kh (K : StateMeasMat) (H : MeasStateMat) : Mat9 := fun i j =>
  Finset.univ.sum fun k => K i k * H k j

/-- cuas::mat::mahalanobisDistance: `innovᵀ·S⁻¹·innov`. -/
def mahalanobisDistance (innov : Vec3) (Sinv : Mat3) : ℚ :=
  Finset.univ.sum fun i => Finset.univ.sum fun j => innov i * Sinv i j * innov j

/-- cuas::mat::det3x3: cofactor expansion of a 3×3 determinant. -/
def det3x3 (M : Mat3) : ℚ :=
  M 0 0 * (M 1 1 * M 2 2 - M 1 2 * M 2 1)
  - M 0 1 * (M 1 0 * M 2 2 - M 1 2 * M 2 0)
  + M 0 2 * (M 1 0 * M 2 1 - M 1 1 * M 2 0)

/-- cuas::mat::measSub on 3-vectors. -/
def measSub (a b : Vec3) : Vec3 := fun i => a i - b i

/-- cuas::mat::measAddMat on 3×3 matrices. -/
def measAddMat (A B : Mat3) : Mat3 := fun i j => A i j + B i j

/-! ### Gauss–Jordan inversion of a 3×3 matrix
(`cuas::mat::invertMatrix<3>`, used through `invertMeas`).  The augmented
3×6 matrix is a total function; a pivot of magnitude < 1e-14 makes the
inversion fail (`Option.none` models the C++ `return false`). -/

/-- Augmented 3×6 working matrix of the Gauss–Jordan elimination. -/
abbrev Aug3 := Fin 3 → Fin 6 → ℚ

/-- Column `col` of the left half viewed inside the augmented matrix. -/
def augCol (col : Fin 3) : Fin 6 := ⟨col.val, by omega⟩

/-- Initial augmented matrix `[input | I]` of invertMatrix. -/
def augInit (input : Mat3) : Aug3 := fun i j =>
  if h : j.val < 3 then input i ⟨j.val, h⟩
  else if i.val = j.val - 3 then 1 else 0

/-- Partial-pivot search of invertMatrix: scan rows below `col`, keeping the
first row of strictly largest absolute value (ties keep the earlier row, as
in the source's strict `>` update). -/
def pivotSearch (aug : Aug3) (col : Fin 3) : Fin 3 × ℚ :=
  ((List.finRange 3).filter (fun r => col.val < r.val)).foldl
    (fun best r => if |aug r (augCol col)| > best.2 then (r, |aug r (augCol col)|) else best)
    (col, |aug col (augCol col)|)

/-- Row swap of the augmented matrix (`std::swap(aug[col], aug[pivotRow])`). -/
def swapRows (r1 r2 : Fin 3) (aug : Aug3) : Aug3 := fun r c =>
  if r = r1 then aug r2 c else if r = r2 then aug r1 c else aug r c

/-- One column step of invertMatrix: pivot search, failure on a pivot below
1e-14, row swap, pivot-row normalization, and elimination of the column in
all other rows (the factor is read before the row is modified, as in the
source). -/
def gjStep (col : Fin 3) (aug : Aug3) : Option Aug3 :=
  let p := pivotSearch aug col
  if p.2 < (1 : ℚ)/10^14 then none
  else
    let a1 := swapRows col p.1 aug
    let d := a1 col (augCol col)
    let a2 : Aug3 := fun r c => if r = col then a1 r c / d else a1 r c
    some (fun r c =>
      if r = col then a2 r c else a2 r c - a2 r (augCol col) * a2 col c)

/-- cuas::mat::invertMeas (invertMatrix<3>): Gauss–Jordan with partial
pivoting over the three columns; returns the right half of the augmented
matrix on success. -/
def invertMeas (input : Mat3) : Option Mat3 :=
  ((gjStep 0 (augInit input)).bind (gjStep 1) |>.bind (gjStep 2)).map
    (fun aug => fun i j => aug i ⟨3 + j.val, by omega⟩)

end mat

/-! ## Data model (src/include/common/types.h) -/

/-- cuas::Detection: one spherical return from the signal processor.  All
eight `double` fields are embedded as exact rationals. -/
structure Detection where
  range : ℚ
  azimuth : ℚ
  elevation : ℚ
  strength : ℚ
  noise : ℚ
  snr : ℚ
  rcs : ℚ
  microDoppler : ℚ
deriving DecidableEq, Repr

/-- cuas::TrackStatus. -/
inductive TrackStatus where
  | Tentative
  | Confirmed
  | Coasting
  | Deleted
deriving DecidableEq, Repr

/-- cuas::TrackClassification. -/
inductive TrackClassification where
  | Unknown
  | DroneRotary
  | DroneFixedWing
  | Bird
  | Clutter
deriving DecidableEq, Repr

/-! ## Preprocessor (src/src/preprocessing/preprocessor.cpp) -/

/-- PreprocessConfig: the twelve configured bounds consumed by
Preprocessor::isValid. -/
structure PreprocessConfig where
  minRange : ℚ
  maxRange : ℚ
  minAzimuth : ℚ
  maxAzimuth : ℚ
  minElevation : ℚ
  maxElevation : ℚ
  minSNR : ℚ
  maxSNR : ℚ
  minRCS : ℚ
  maxRCS : ℚ
  minStrength : ℚ
  maxStrength : ℚ

namespace Preprocessor

/-- Preprocessor::isValid: the chain of early-return bound checks. -/
def isValid (cfg : PreprocessConfig) (d : Detection) : Bool :=
  if d.range < cfg.minRange ∨ d.range > cfg.maxRange then false
  else if d.azimuth < cfg.minAzimuth ∨ d.azimuth > cfg.maxAzimuth then false
  else if d.elevation < cfg.minElevation ∨ d.elevation > cfg.maxElevation then false
  else if d.snr < cfg.minSNR ∨ d.snr > cfg.maxSNR then false
  else if d.rcs < cfg.minRCS ∨ d.rcs > cfg.maxRCS then false
  else if d.strength < cfg.minStrength ∨ d.strength > cfg.maxStrength then false
  else true

/-- Preprocessor::process: keep the valid detections in input order (the
C++ loop pushes each passing detection in sequence; the rejected counter is
observability only and carries no data flow). -/
def process (cfg : PreprocessConfig) (raw : List Detection) : List Detection :=
  raw.filter (isValid cfg)

/-- Modelled from the spec's words, for comparison with the code's
`isValid`: a detection passes iff all of range, azimuth, elevation, SNR,
RCS, strength fall inclusively within their configured min/max interval. -/
def specPasses (cfg : PreprocessConfig) (d : Detection) : Prop :=
  (cfg.minRange ≤ d.range ∧ d.range ≤ cfg.maxRange) ∧
  (cfg.minAzimuth ≤ d.azimuth ∧ d.azimuth ≤ cfg.maxAzimuth) ∧
  (cfg.minElevation ≤ d.elevation ∧ d.elevation ≤ cfg.maxElevation) ∧
  (cfg.minSNR ≤ d.snr ∧ d.snr ≤ cfg.maxSNR) ∧
  (cfg.minRCS ≤ d.rcs ∧ d.rcs ≤ cfg.maxRCS) ∧
  (cfg.minStrength ≤ d.strength ∧ d.strength ≤ cfg.maxStrength)

instance (cfg : PreprocessConfig) (d : Detection) : Decidable (specPasses cfg d) := by
  unfold specPasses; infer_instance

end Preprocessor

/-! ## Track lifecycle (src/src/track_management/track_manager.cpp) -/

/-- trackManagement.maintenance configuration fields used by
TrackManager::maintainTracks. -/
structure MaintenanceConfig where
  confirmHits : ℕ
  qualityBoost : ℚ
  qualityDecayRate : ℚ

/-- trackManagement.deletion configuration fields used by
TrackManager::deleteTracks. -/
structure DeletionConfig where
  maxCoastingDwells : ℕ
  minQuality : ℚ
  maxRange : ℚ

/-- Lifecycle-relevant projection of cuas::Track: status, the counters and
quality consulted by maintainTracks/deleteTracks, and the spherical range
of the merged position.  The `range` field abstracts
`track->sphericalPosition().range` (computed with `std::sqrt` in the
source); the deletion rule only compares it against `maxRange`. -/
structure LTrack where
  status : TrackStatus
  hitCount : ℕ
  consecutiveMisses : ℕ
  quality : ℚ
  range : ℚ
deriving DecidableEq, Repr

namespace TrackManager

/-- Loop body of TrackManager::maintainTracks for one track: Deleted tracks
are skipped; quality is boosted (capped at 1) on a hit dwell or decayed on
a miss dwell; then the Tentative→Confirmed, Confirmed→Coasting and
Coasting→Confirmed transitions are applied. -/
def maintainTrack (cfg : MaintenanceConfig) (t : LTrack) : LTrack :=
  if t.status = .Deleted then t
  else
    let q := if t.consecutiveMisses = 0
             then min 1 (t.quality + cfg.qualityBoost)
             else t.quality * cfg.qualityDecayRate
    let t1 := { t with quality := q }
    if t1.status = .Tentative then
      if t1.hitCount ≥ cfg.confirmHits then { t1 with status := .Confirmed } else t1
    else if t1.status = .Confirmed then
      if t1.consecutiveMisses > 0 then { t1 with status := .Coasting } else t1
    else if t1.status = .Coasting then
      if t1.consecutiveMisses = 0 then { t1 with status := .Confirmed } else t1
    else t1

/-- TrackManager::maintainTracks over the track list. -/
def maintainTracks (cfg : MaintenanceConfig) (ts : List LTrack) : List LTrack :=
  ts.map (maintainTrack cfg)

/-- Marking phase of TrackManager::deleteTracks for one track: Deleted
tracks are skipped; otherwise the track is marked Deleted when
consecutiveMisses ≥ maxCoastingDwells, else when quality < minQuality,
else when spherical range > maxRange. -/
def markDeleted (cfg : DeletionConfig) (t : LTrack) : LTrack :=
  if t.status = .Deleted then t
  else if t.consecutiveMisses ≥ cfg.maxCoastingDwells then { t with status := .Deleted }
  else if t.quality < cfg.minQuality then { t with status := .Deleted }
  else if t.range > cfg.maxRange then { t with status := .Deleted }
  else t

/-- TrackManager::deleteTracks: mark, then erase every track whose status
is Deleted (the std::remove_if prune at the end of the dwell). -/
def deleteTracks (cfg : DeletionConfig) (ts : List LTrack) : List LTrack :=
  (ts.map (markDeleted cfg)).filter (fun t => ¬ t.status = .Deleted)

/-- Loop body of TrackManager::classifyTracks: the heuristic decision
chain on speed and the per-family sums of the IMM mode probabilities.
`speed` is `‖velocity‖` (computed with `std::sqrt` in the source); the
chain only compares it against constant thresholds. -/
def classifyTrack (speed : ℚ) (probs : Fin 5 → ℚ) : TrackClassification :=
  let cvProb := probs 0
  let caProb := probs 1 + probs 2
  let ctrProb := probs 3 + probs 4
  if speed < 2 then .Clutter
  else if ctrProb > 2/5 ∧ speed > 5 ∧ speed < 30 then .DroneRotary
  else if cvProb > 3/10 ∧ speed > 15 ∧ speed < 80 then .DroneFixedWing
  else if speed > 5 ∧ speed < 25 ∧ caProb > 3/10 then .Bird
  else .Unknown

end TrackManager

/-! ## IMM filter (src/src/prediction/imm_filter.cpp)

The five motion models sit behind the virtual `MotionModel` interface in
the source; the embedding passes them in as a function parameter
`models : Fin 5 → ℚ → Vec9 → Mat9 → Vec9 × Mat9` (model index, dt, state,
covariance ↦ predicted state and covariance).  The transcendental kernels
`std::exp` and `std::log` of the likelihood are parameters `rexp`/`rlog`. -/

/-- Transition-probability matrix type (`transMatrix_`). -/
abbrev TransMatrix := Fin 5 → Fin 5 → ℚ

/-- cuas::IMMState: per-model states and covariances, mode probabilities,
and the merged estimate. -/
structure IMMState where
  modelStates : Fin 5 → Vec9
  modelCovariances : Fin 5 → Mat9
  modeProbabilities : Fin 5 → ℚ
  mergedState : Vec9
  mergedCovariance : Mat9

namespace IMMFilter

/-- IMMFilter::getMeasurementMatrix: `H` selects state components 0, 3, 6. -/
def measurementMatrix : MeasStateMat := fun i j =>
  if (i.val = 0 ∧ j.val = 0) ∨ (i.val = 1 ∧ j.val = 3) ∨ (i.val = 2 ∧ j.val = 6)
  then 1 else 0

/-- Predicted mode probabilities `c̄ⱼ = Σᵢ Tᵢⱼ·μᵢ` of IMMFilter::interaction
and IMMFilter::updateModeProbabilities. -/
def cBar (T : TransMatrix) (mu : Fin 5 → ℚ) : Fin 5 → ℚ := fun j =>
  Finset.univ.sum fun i => T i j * mu i

/-- Mixing probabilities `μᵢ|ⱼ` with the identity fallback when
`c̄ⱼ ≤ 1e-15`. -/
def mixProb (T : TransMatrix) (mu : Fin 5 → ℚ) : Fin 5 → Fin 5 → ℚ := fun i j =>
  if cBar T mu j > 1/10^15 then T i j * mu i / cBar T mu j
  else if i = j then 1 else 0

/-- IMMFilter::interaction: mixed initial states and covariances; the
accumulation loops of the source become finite sums. -/
def interaction (T : TransMatrix) (s : IMMState) : IMMState :=
  let x0j : Fin 5 → Vec9 := fun j k =>
    Finset.univ.sum fun i => s.modelStates i k * mixProb T s.modeProbabilities i j
  let P0j : Fin 5 → Mat9 := fun j a b =>
    Finset.univ.sum fun i =>
      (s.modelCovariances i a b +
        (s.modelStates i a - x0j j a) * (s.modelStates i b - x0j j b)) *
      mixProb T s.modeProbabilities i j
  { s with modelStates := x0j, modelCovariances := P0j }

/-- IMMFilter::modelPredictions: each model's predict applied to its mixed
state and covariance. -/
def modelPredictions (models : Fin 5 → ℚ → Vec9 → Mat9 → Vec9 × Mat9)
    (dt : ℚ) (s : IMMState) : IMMState :=
  { s with
    modelStates := fun m => (models m dt (s.modelStates m) (s.modelCovariances m)).1
    modelCovariances := fun m => (models m dt (s.modelStates m) (s.modelCovariances m)).2 }

/-- IMMFilter::mergeEstimates: probability-weighted merged state and
covariance. -/
def mergeEstimates (s : IMMState) : IMMState :=
  let x : Vec9 := fun k =>
    Finset.univ.sum fun m => s.modelStates m k * s.modeProbabilities m
  let P : Mat9 := fun a b =>
    Finset.univ.sum fun m =>
      (s.modelCovariances m a b +
        (s.modelStates m a - x a) * (s.modelStates m b - x b)) *
      s.modeProbabilities m
  { s with mergedState := x, mergedCovariance := P }

/-- IMMFilter::predict: interaction, per-model prediction, merge.  Mode
probabilities are not touched by any of the three sub-steps. -/
def predict (models : Fin 5 → ℚ → Vec9 → Mat9 → Vec9 × Mat9)
    (T : TransMatrix) (dt : ℚ) (s : IMMState) : IMMState :=
  mergeEstimates (modelPredictions models dt (interaction T s))

/-- The `2.0 * 3.14159265358979` double literal of
IMMFilter::modelLikelihood, as an exact rational. -/
def twoPiLik : ℚ := 2 * (314159265358979 / 10^14)

/-- IMMFilter::modelLikelihood: floor 1e-30 when `det S < 1e-30` or when
the inversion fails, otherwise `exp(−½(d·log 2π + log det S + d²))`. -/
def modelLikelihood (rexp rlog : ℚ → ℚ) (m : Fin 5) (s : IMMState)
    (z : Vec3) (R : Mat3) : ℚ :=
  let H := measurementMatrix
  let zPred := mat.measFromState H (s.modelStates m)
  let innov := mat.measSub z zPred
  let S := mat.measAddMat (mat.hpht H (s.modelCovariances m)) R
  let detS := mat.det3x3 S
  if detS < 1/10^30 then 1/10^30
  else
    match mat.invertMeas S with
    | none => 1/10^30
    | some Sinv =>
      let d := mat.mahalanobisDistance innov Sinv
      rexp (-(1/2) * (3 * rlog twoPiLik + rlog detS + d))

/-- IMMFilter::updateModeProbabilities: `μⱼ ∝ ℓⱼ·c̄ⱼ`, renormalized when the
total mass exceeds 1e-30, otherwise reset to the uniform 1/5. -/
def updateModeProbabilities (rexp rlog : ℚ → ℚ) (T : TransMatrix)
    (s : IMMState) (z : Vec3) (R : Mat3) : IMMState :=
  let lik : Fin 5 → ℚ := fun m => modelLikelihood rexp rlog m s z R
  let c := cBar T s.modeProbabilities
  let raw : Fin 5 → ℚ := fun j => lik j * c j
  let total := Finset.univ.sum raw
  { s with modeProbabilities :=
      if total > 1/10^30 then fun j => raw j / total else fun _ => 1/5 }

/-- The normalizing mass `Σⱼ ℓⱼ·c̄ⱼ` (`totalLik`) of
IMMFilter::updateModeProbabilities, named so theorems can refer to it. -/
def totalMass (rexp rlog : ℚ → ℚ) (T : TransMatrix) (s : IMMState)
    (z : Vec3) (R : Mat3) : ℚ :=
  Finset.univ.sum fun j =>
    modelLikelihood rexp rlog j s z R * cBar T s.modeProbabilities j

/-- Per-model Kalman correction of IMMFilter::update: skipped (state and
covariance unchanged) when the Gauss–Jordan inversion of
`S = H·P·Hᵀ + R` fails; otherwise `x += K·ν` and `P ← (I − K·H)·P`. -/
def kalmanModelUpdate (z : Vec3) (R : Mat3) (x : Vec9) (P : Mat9) :
    Vec9 × Mat9 :=
  let H := measurementMatrix
  let zPred := mat.measFromState H x
  let innov := mat.measSub z zPred
  let S := mat.measAddMat (mat.hpht H P) R
  match mat.invertMeas S with
  | none => (x, P)
  | some Sinv =>
    let PHt := mat.pht P H
    let K := mat.kalmanGain PHt Sinv
    let xNew := mat.add x (mat.kalmanCorrection K innov)
    let KH := mat.kh K H
    let IminKH := mat.subMat matIdentity KH
    (xNew, mat.multiply IminKH P)

/-- The per-model loop of IMMFilter::update (step 1). -/
def kalmanStep (z : Vec3) (R : Mat3) (s : IMMState) : IMMState :=
  { s with
    modelStates := fun m => (kalmanModelUpdate z R (s.modelStates m) (s.modelCovariances m)).1
    modelCovariances := fun m => (kalmanModelUpdate z R (s.modelStates m) (s.modelCovariances m)).2 }

/-- IMMFilter::update: per-model Kalman corrections, then the mode
probability update (computed on the corrected states), then merge. -/
def update (rexp rlog : ℚ → ℚ) (T : TransMatrix) (s : IMMState)
    (z : Vec3) (R : Mat3) : IMMState :=
  mergeEstimates (updateModeProbabilities rexp rlog T (kalmanStep z R s) z R)

end IMMFilter

/-! ## Clusters (src/include/common/types.h) -/

/-- cuas::Cluster.  `x`, `y`, `z` are the Cartesian centroid fields
(`cartesian.x/y/z`); all `double` fields are exact rationals and
`detectionIndices` keeps the contributing detection indices. -/
structure Cluster where
  clusterId : ℕ
  range : ℚ
  azimuth : ℚ
  elevation : ℚ
  strength : ℚ
  snr : ℚ
  rcs : ℚ
  microDoppler : ℚ
  numDetections : ℕ
  x : ℚ
  y : ℚ
  z : ℚ
  detectionIndices : List ℕ
deriving DecidableEq, Repr

/-- The measurement vector `{cluster.cartesian.x, .y, .z}` built by every
associator and by the track manager's update call. -/
def clusterMeas (c : Cluster) : Vec3 := fun i =>
  if i.val = 0 then c.x else if i.val = 1 then c.y else c.z

/-! ## Association (src/src/association/) -/

/-- cuas::AssociationResult. -/
structure AssociationResult where
  trackIndex : ℕ
  clusterIndex : ℕ
  distance : ℚ
deriving DecidableEq, Repr

/-- cuas::AssociationOutput. -/
structure AssociationOutput where
  matched : List AssociationResult
  unmatchedTracks : List ℕ
  unmatchedClusters : List ℕ
deriving DecidableEq, Repr

/-- MahalanobisConfig: the acceptance threshold of the greedy pass. -/
structure MahalanobisConfig where
  distanceThreshold : ℚ

namespace MahalanobisAssociator

/-- Inner candidate loop of MahalanobisAssociator::associate for one track
`t`: skip the track entirely when `S` is singular, otherwise emit a
candidate for every cluster whose Mahalanobis squared distance is within
the gate.  The associator reads only `tracks[t].immState()`, so tracks are
passed as their IMM states. -/
def candidatesForTrack (gatingThreshold : ℚ) (R : Mat3) (t : ℕ)
    (st : IMMState) (clusters : List Cluster) : List AssociationResult :=
  let H := IMMFilter.measurementMatrix
  let S := mat.measAddMat (mat.hpht H st.mergedCovariance) R
  match mat.invertMeas S with
  | none => []
  | some Sinv =>
    let zPred := mat.measFromState H st.mergedState
    clusters.enum.filterMap fun p =>
      let innov := mat.measSub (clusterMeas p.2) zPred
      let d := mat.mahalanobisDistance innov Sinv
      if d ≤ gatingThreshold then some ⟨t, p.1, d⟩ else none

/-- All gated candidates, tracks outer loop then clusters inner loop. -/
def allCandidates (gatingThreshold : ℚ) (R : Mat3) (tracks : List IMMState)
    (clusters : List Cluster) : List AssociationResult :=
  tracks.enum.flatMap fun p => candidatesForTrack gatingThreshold R p.1 p.2 clusters

/-- Ordered insertion used to model the `std::sort` by ascending distance
(the source's comparator is strict `<` on distance; tie order is
unspecified in C++, and an insertion sort realizes one valid order). -/
def insertByDistance (a : AssociationResult) :
    List AssociationResult → List AssociationResult
  | [] => [a]
  | b :: l => if a.distance ≤ b.distance then a :: b :: l
              else b :: insertByDistance a l

/-- Sort of the candidate list by ascending distance. -/
def sortByDistance : List AssociationResult → List AssociationResult
  | [] => []
  | a :: l => insertByDistance a (sortByDistance l)

/-- Greedy acceptance loop: a candidate is skipped when its track or its
cluster is already matched (the `matchedTracks`/`matchedClusters` sets of
the source are exactly the index sets of the accumulated matches), and
accepted when its distance is within `distanceThreshold`. -/
def greedy (distanceThreshold : ℚ) (cands : List AssociationResult) :
    List AssociationResult :=
  cands.foldl
    (fun matched cand =>
      if matched.any (fun m => m.trackIndex == cand.trackIndex ||
                               m.clusterIndex == cand.clusterIndex) then matched
      else if cand.distance ≤ distanceThreshold then matched ++ [cand]
      else matched)
    []

/-- MahalanobisAssociator::associate. -/
def associate (cfg : MahalanobisConfig) (gatingThreshold : ℚ)
    (tracks : List IMMState) (clusters : List Cluster) (R : Mat3) :
    AssociationOutput :=
  let matched := greedy cfg.distanceThreshold
    (sortByDistance (allCandidates gatingThreshold R tracks clusters))
  { matched := matched
    unmatchedTracks := (List.range tracks.length).filter
      (fun t => !(matched.any (fun m => m.trackIndex == t)))
    unmatchedClusters := (List.range clusters.length).filter
      (fun c => !(matched.any (fun m => m.clusterIndex == c))) }

end MahalanobisAssociator

/-- GNNConfig: the cost acceptance threshold. -/
structure GNNConfig where
  costThreshold : ℚ

namespace GNNAssociator

/-- The `1e30` infinity sentinel of the GNN cost matrix. -/
def INF : ℚ := 10^30

/-- Cost matrix of GNNAssociator::associate: `INF` outside the gate, for a
track whose `S` is singular, and outside the real dimensions. -/
def costMatrix (gatingThreshold : ℚ) (R : Mat3) (tracks : List IMMState)
    (clusters : List Cluster) : ℕ → ℕ → ℚ := fun t c =>
  match tracks.get? t, clusters.get? c with
  | some st, some cl =>
    let H := IMMFilter.measurementMatrix
    let S := mat.measAddMat (mat.hpht H st.mergedCovariance) R
    (match mat.invertMeas S with
     | none => INF
     | some Sinv =>
       let zPred := mat.measFromState H st.mergedState
       let innov := mat.measSub (clusterMeas cl) zPred
       let d := mat.mahalanobisDistance innov Sinv
       if d ≤ gatingThreshold then d else INF)
  | _, _ => INF

/-- Padded square matrix of hungarianAssignment (`C`, size n×n, `INF`
outside the real block). -/
def padded (nT nC : ℕ) (cost : ℕ → ℕ → ℚ) : ℕ → ℕ → ℚ := fun i j =>
  if i < nT ∧ j < nC then cost i j else INF

/-- `*std::min_element` over row `i` of the padded n×n matrix. -/
def rowMin (n : ℕ) (C : ℕ → ℕ → ℚ) (i : ℕ) : ℚ :=
  match (List.range n).map (C i) with
  | [] => INF
  | x :: xs => xs.foldl min x

/-- Step 1 of hungarianAssignment: row reduction. -/
def rowReduce (n : ℕ) (C : ℕ → ℕ → ℚ) : ℕ → ℕ → ℚ := fun i j =>
  let m := rowMin n C i
  if m < INF then C i j - m else C i j

/-- Column minimum of step 2, seeded with `INF` as in the source. -/
def colMin (n : ℕ) (C : ℕ → ℕ → ℚ) (j : ℕ) : ℚ :=
  (List.range n).foldl (fun acc i => min acc (C i j)) INF

/-- Step 2 of hungarianAssignment: column reduction. -/
def colReduce (n : ℕ) (C : ℕ → ℕ → ℚ) : ℕ → ℕ → ℚ := fun i j =>
  let m := colMin n C j
  if m < INF then C i j - m else C i j

/-- Best unused column of one greedy-assignment scan: fold over columns
`j < numClusters` keeping the strictly smallest reduced cost (`bestJ = -1`
becomes `none`). -/
def bestColumn (nC : ℕ) (Cred : ℕ → ℕ → ℚ) (colUsed : List Bool) (i : ℕ) :
    ℚ × Option ℕ :=
  (List.range nC).foldl
    (fun best j =>
      if colUsed.getD j false then best
      else if Cred i j < best.1 then (Cred i j, some j) else best)
    (INF, none)

/-- One greedy pass of step 3 over all rows: an unassigned row takes its
best unused column provided the original cost beats `costThreshold`. -/
def greedyPass (nT nC : ℕ) (Cred cost : ℕ → ℕ → ℚ) (thr : ℚ)
    (st : List (Option ℕ) × List Bool) : List (Option ℕ) × List Bool :=
  (List.range nT).foldl
    (fun st i =>
      if (st.1.getD i none).isSome then st
      else
        match (bestColumn nC Cred st.2 i).2 with
        | some j => if cost i j < thr then (st.1.set i (some j), st.2.set j true)
                    else st
        | none => st)
    st

/-- GNNAssociator::hungarianAssignment: padding, row reduction, column
reduction, then three greedy passes.  The `-1` entries of the C++
assignment vector become `none`. -/
def hungarianAssignment (thr : ℚ) (cost : ℕ → ℕ → ℚ) (nT nC : ℕ) :
    List (Option ℕ) :=
  let n := max nT nC
  let C2 := colReduce n (rowReduce n (padded nT nC cost))
  let st0 : List (Option ℕ) × List Bool :=
    (List.replicate nT none, List.replicate n false)
  (greedyPass nT nC C2 cost thr
    (greedyPass nT nC C2 cost thr
      (greedyPass nT nC C2 cost thr st0))).1

/-- GNNAssociator::associate. -/
def associate (cfg : GNNConfig) (gatingThreshold : ℚ)
    (tracks : List IMMState) (clusters : List Cluster) (R : Mat3) :
    AssociationOutput :=
  let nT := tracks.length
  let nC := clusters.length
  let cost := costMatrix gatingThreshold R tracks clusters
  let assignment := hungarianAssignment cfg.costThreshold cost nT nC
  let matched := (List.range nT).filterMap fun t =>
    match assignment.getD t none with
    | some j => if j < nC then some (⟨t, j, cost t j⟩ : AssociationResult) else none
    | none => none
  { matched := matched
    unmatchedTracks := (List.range nT).filter fun t =>
      match assignment.getD t none with
      | some j => !(decide (j < nC))
      | none => true
    unmatchedClusters := (List.range nC).filter
      (fun c => !(matched.any (fun m => m.clusterIndex == c))) }

end GNNAssociator

/-- JPDAConfig fields consumed by the JPDA associator. -/
structure JPDAConfig where
  clutterDensity : ℚ
  detectionProbability : ℚ
  gateSize : ℚ

/-- JPDAAssociator::JPDAWeights. -/
structure JPDAWeights where
  trackIndex : ℕ
  betaZero : ℚ
  clusterWeights : List (ℕ × ℚ)
deriving DecidableEq, Repr

namespace JPDAAssociator

/-- The `3.14159265` double literal of the JPDA likelihood, exact. -/
def piJPDA : ℚ := 314159265 / 10^8

/-- Per-track body of JPDAAssociator::computeWeights.  The transcendental
kernels `std::exp` and `std::sqrt` are the parameters `rexp`/`rsqrt`. -/
def weightsForTrack (rexp rsqrt : ℚ → ℚ) (cfg : JPDAConfig) (R : Mat3)
    (t : ℕ) (st : IMMState) (clusters : List Cluster) : JPDAWeights :=
  let H := IMMFilter.measurementMatrix
  let S := mat.measAddMat (mat.hpht H st.mergedCovariance) R
  match mat.invertMeas S with
  | none => ⟨t, 1, []⟩
  | some Sinv =>
    let detS := mat.det3x3 S
    let zPred := mat.measFromState H st.mergedState
    let pd := cfg.detectionProbability
    let lam := cfg.clutterDensity
    let gatedMeas : List (ℕ × ℚ) := clusters.enum.filterMap fun p =>
      let innov := mat.measSub (clusterMeas p.2) zPred
      let d := mat.mahalanobisDistance innov Sinv
      if d ≤ cfg.gateSize then
        some (p.1, rexp (-(1/2) * d) / rsqrt ((2 * piJPDA)^3 * |detS|))
      else none
    if gatedMeas.isEmpty then ⟨t, 1, []⟩
    else
      let sumLik := (gatedMeas.map (fun q => pd * q.2)).sum
      let denominator := (1 - pd) * lam + sumLik
      if denominator < 1/10^30 then ⟨t, 1, []⟩
      else ⟨t, (1 - pd) * lam / denominator,
            gatedMeas.map (fun q => (q.1, pd * q.2 / denominator))⟩

/-- JPDAAssociator::computeWeights over all tracks. -/
def computeWeights (rexp rsqrt : ℚ → ℚ) (cfg : JPDAConfig) (R : Mat3)
    (tracks : List IMMState) (clusters : List Cluster) : List JPDAWeights :=
  tracks.enum.map fun p => weightsForTrack rexp rsqrt cfg R p.1 p.2 clusters

/-- Best-β selection loop of JPDAAssociator::associate (`bestBeta` starts
at 0 and only a strictly larger β replaces it; `bestCluster = -1` becomes
`none`). -/
def selectBest (ws : List (ℕ × ℚ)) : ℚ × Option ℕ :=
  ws.foldl (fun best q => if q.2 > best.1 then (q.2, some q.1) else best)
    (0, none)

/-- Per-track body of the association loop of JPDAAssociator::associate:
a track with no gated measurement or with `β₀ > 0.5` goes to the
unmatched list, otherwise it is matched to its maximum-β cluster with
reported distance `1 − bestβ` (`bestCluster = -1` falls back to
unmatched). -/
def accumulate (acc : List AssociationResult × List ℕ) (w : JPDAWeights) :
    List AssociationResult × List ℕ :=
  if w.clusterWeights.isEmpty || decide (w.betaZero > (1 : ℚ)/2) then
    (acc.1, acc.2 ++ [w.trackIndex])
  else
    match (selectBest w.clusterWeights).2 with
    | some bc =>
      (acc.1 ++ [⟨w.trackIndex, bc, 1 - (selectBest w.clusterWeights).1⟩], acc.2)
    | none => (acc.1, acc.2 ++ [w.trackIndex])

/-- JPDAAssociator::associate: the per-track `accumulate` loop over the
computed weights.  Matched clusters are collected into a set only to
compute the unmatched-cluster list. -/
def associate (rexp rsqrt : ℚ → ℚ) (cfg : JPDAConfig)
    (tracks : List IMMState) (clusters : List Cluster) (R : Mat3) :
    AssociationOutput :=
  let ws := computeWeights rexp rsqrt cfg R tracks clusters
  let step := ws.foldl accumulate ([], [])
  { matched := step.1
    unmatchedTracks := step.2
    unmatchedClusters := (List.range clusters.length).filter
      (fun c => !(step.1.any (fun m => m.clusterIndex == c))) }

end JPDAAssociator

/-! ## Track entity and initiator (src/src/track_management/) -/

/-- cuas::Track, with the fields set by the constructor and defaulted
member initializers of track.h.  Timestamps are microsecond naturals. -/
structure Track where
  id : ℕ
  status : TrackStatus
  classification : TrackClassification
  imm : IMMState
  hitCount : ℕ
  missCount : ℕ
  consecutiveMisses : ℕ
  age : ℕ
  quality : ℚ
  initiationTime : ℕ
  lastUpdateTime : ℕ

/-- Track::Track: all five models start from the same state and
covariance, mode probabilities come from the configuration, the merged
estimate starts at the initial state, `hitCount` is set to 1; the member
initializers give status Tentative, classification Unknown, quality 0.5
and zero counters. -/
def mkTrack (id : ℕ) (x0 : Vec9) (P0 : Mat9)
    (initialModeProbabilities : Fin 5 → ℚ) (initTime : ℕ) : Track :=
  { id := id
    status := .Tentative
    classification := .Unknown
    imm :=
      { modelStates := fun _ => x0
        modelCovariances := fun _ => P0
        modeProbabilities := initialModeProbabilities
        mergedState := x0
        mergedCovariance := P0 }
    hitCount := 1
    missCount := 0
    consecutiveMisses := 0
    age := 0
    quality := 1/2
    initiationTime := initTime
    lastUpdateTime := initTime }

/-- trackManagement.initiation configuration. -/
structure InitiationConfig where
  m : ℕ
  n : ℕ
  maxInitiationRange : ℚ
  velocityGate : ℚ

/-- trackManagement.initialCovariance configuration. -/
structure InitialCovarianceConfig where
  positionStd : ℚ
  velocityStd : ℚ
  accelerationStd : ℚ

/-- cuas::TentativeDetection: a cluster with its timestamp (µs) and
dwell index. -/
structure TentativeDetection where
  cluster : Cluster
  timestamp : ℕ
  dwellCount : ℕ

/-- cuas::InitiationCandidate. -/
structure InitiationCandidate where
  history : List TentativeDetection
  hits : ℕ
  total : ℕ
  promoted : Bool

namespace TrackInitiator

/-- TrackInitiator::initState: position only, zero velocity and
acceleration. -/
def initState (c : Cluster) : Vec9 := fun i =>
  if i.val = 0 then c.x else if i.val = 3 then c.y
  else if i.val = 6 then c.z else 0

/-- TrackInitiator::initStateWithVelocity: position from the newer cluster
and, only when `dt > 1e-6`, the finite-difference velocity. -/
def initStateWithVelocity (c0 c1 : Cluster) (dt : ℚ) : Vec9 := fun i =>
  if i.val = 0 then c1.x else if i.val = 3 then c1.y
  else if i.val = 6 then c1.z
  else if dt > 1/10^6 then
    if i.val = 1 then (c1.x - c0.x) / dt
    else if i.val = 4 then (c1.y - c0.y) / dt
    else if i.val = 7 then (c1.z - c0.z) / dt
    else 0
  else 0

/-- TrackInitiator::initCovariance: zero off the diagonal; on the diagonal
the per-axis pattern position/velocity/acceleration variance (state
components 3a, 3a+1, 3a+2 for axis a). -/
def initCovariance (cfg : InitialCovarianceConfig) : Mat9 := fun i j =>
  if i = j then
    if i.val % 3 = 0 then cfg.positionStd * cfg.positionStd
    else if i.val % 3 = 1 then cfg.velocityStd * cfg.velocityStd
    else cfg.accelerationStd * cfg.accelerationStd
  else 0

/-- The candidate gate of TrackInitiator::processCandidates: the candidate
must be unpromoted with nonempty history, and the incoming cluster must be
within the range gate `velocityGate·Δt + 100` and the fixed 0.1 rad
azimuth and elevation gates of the candidate's most recent detection.
Timestamps are monotone microsecond counters, so the `uint64` difference
is the natural-number difference. -/
def gateMatch (icfg : InitiationConfig) (cand : InitiationCandidate)
    (cluster : Cluster) (ts : ℕ) : Bool :=
  if cand.promoted then false
  else
    match cand.history.getLast? with
    | none => false
    | some last =>
      let dr := |cluster.range - last.cluster.range|
      let da := |cluster.azimuth - last.cluster.azimuth|
      let de := |cluster.elevation - last.cluster.elevation|
      let dt := ((ts - last.timestamp : ℕ) : ℚ) / 10^6
      let maxRange := icfg.velocityGate * dt + 100
      decide (dr < maxRange ∧ da < 1/10 ∧ de < 1/10)

/-- State threaded through TrackInitiator::processCandidates: the
candidate list, the new tracks produced so far, and the `nextId_` counter. -/
structure InitStep where
  candidates : List InitiationCandidate
  newTracks : List Track
  nextId : ℕ

/-- Walk the candidate list looking for the first gate match (the inner
`for (auto& cand : candidates_)` loop with its `break`).  On a match the
new detection is appended, hits and total are incremented, and the M-of-N
check `hits ≥ m ∧ total ≤ n` decides promotion; the promoted track takes
its state from the last two history entries (the history has at least two
entries after the append, since only candidates with nonempty history can
match).  Returns `none` when no candidate matches. -/
def tryCandidates (icfg : InitiationConfig) (ccfg : InitialCovarianceConfig)
    (modeProbs : Fin 5 → ℚ) (cluster : Cluster) (ts dwell nextId : ℕ) :
    List InitiationCandidate →
    Option (List InitiationCandidate × Option Track)
  | [] => none
  | cand :: rest =>
    if gateMatch icfg cand cluster ts then
      let td : TentativeDetection := ⟨cluster, ts, dwell⟩
      let cand1 : InitiationCandidate :=
        { cand with history := cand.history ++ [td],
                    hits := cand.hits + 1, total := cand.total + 1 }
      if cand1.hits ≥ icfg.m ∧ cand1.total ≤ icfg.n then
        let x :=
          match cand.history.getLast? with
          | some h0 =>
            initStateWithVelocity h0.cluster cluster
              (((ts - h0.timestamp : ℕ) : ℚ) / 10^6)
          | none => initState cluster
        let P := initCovariance ccfg
        some ({ cand1 with promoted := true } :: rest,
              some (mkTrack nextId x P modeProbs ts))
      else some (cand1 :: rest, none)
    else
      (tryCandidates icfg ccfg modeProbs cluster ts dwell nextId rest).map
        (fun q => (cand :: q.1, q.2))

/-- Per-cluster body of TrackInitiator::processCandidates: clusters beyond
`maxInitiationRange` are ignored; otherwise the first matching candidate
absorbs the cluster (possibly promoting), and with no match a fresh
candidate with `hits = total = 1` is appended. -/
def processCluster (icfg : InitiationConfig) (ccfg : InitialCovarianceConfig)
    (modeProbs : Fin 5 → ℚ) (ts dwell : ℕ) (st : InitStep)
    (cluster : Cluster) : InitStep :=
  if cluster.range > icfg.maxInitiationRange then st
  else
    match tryCandidates icfg ccfg modeProbs cluster ts dwell st.nextId
            st.candidates with
    | some (cands, some tr) =>
      { candidates := cands, newTracks := st.newTracks ++ [tr],
        nextId := st.nextId + 1 }
    | some (cands, none) => { st with candidates := cands }
    | none =>
      { st with candidates :=
          st.candidates ++ [⟨[⟨cluster, ts, dwell⟩], 1, 1, false⟩] }

/-- TrackInitiator::processCandidates over the unmatched clusters of one
dwell. -/
def processCandidates (icfg : InitiationConfig)
    (ccfg : InitialCovarianceConfig) (modeProbs : Fin 5 → ℚ)
    (unmatched : List Cluster) (ts dwell : ℕ) (st0 : InitStep) : InitStep :=
  unmatched.foldl (processCluster icfg ccfg modeProbs ts dwell) st0

end TrackInitiator

/-! ## Message serialization (src/src/common/udp_socket.cpp)

The serializer memcpy's the naturally-aligned `TrackUpdateMessage` struct:
offsets 0/4 the two u32 header fields, 8 the u64 timestamp, 16/20 the two
u32 enums, 24–111 the eleven doubles, 112–123 the three u32 counters, and
4 bytes of tail padding to `sizeof = 128`.  A `double` is its 64-bit
IEEE-754 bit pattern (the claim is bit-exact reproduction, and `memcpy`
copies patterns); enums are their `uint32` values. -/

/-- cuas::TrackUpdateMessage as field bit patterns: `u32` fields are
naturals below 2³², `u64`/`double` fields naturals below 2⁶⁴. -/
structure TrackUpdateMessage where
  messageId : ℕ
  trackId : ℕ
  timestamp : ℕ
  status : ℕ
  classification : ℕ
  range : ℕ
  azimuth : ℕ
  elevation : ℕ
  rangeRate : ℕ
  x : ℕ
  y : ℕ
  z : ℕ
  vx : ℕ
  vy : ℕ
  vz : ℕ
  trackQuality : ℕ
  hitCount : ℕ
  missCount : ℕ
  age : ℕ
deriving DecidableEq, Repr

/-- Well-formedness of the bit patterns: every field fits its width. -/
def TrackUpdateMessage.WF (m : TrackUpdateMessage) : Prop :=
  m.messageId < 2^32 ∧ m.trackId < 2^32 ∧ m.timestamp < 2^64 ∧
  m.status < 2^32 ∧ m.classification < 2^32 ∧
  m.range < 2^64 ∧ m.azimuth < 2^64 ∧ m.elevation < 2^64 ∧
  m.rangeRate < 2^64 ∧ m.x < 2^64 ∧ m.y < 2^64 ∧ m.z < 2^64 ∧
  m.vx < 2^64 ∧ m.vy < 2^64 ∧ m.vz < 2^64 ∧ m.trackQuality < 2^64 ∧
  m.hitCount < 2^32 ∧ m.missCount < 2^32 ∧ m.age < 2^32

instance (m : TrackUpdateMessage) : Decidable m.WF := by
  unfold TrackUpdateMessage.WF; infer_instance

namespace MessageSerializer

/-- Little-endian byte list of width `w` for value `v` (how x86 memcpy
lays out an integer or a double's bit pattern). -/
def toLE : ℕ → ℕ → List ℕ
  | 0, _ => []
  | w + 1, v => v % 256 :: toLE w (v / 256)

/-- Read back a little-endian byte list. -/
def fromLE : List ℕ → ℕ
  | [] => 0
  | b :: bs => b + 256 * fromLE bs

/-- MessageSerializer::serialize(TrackUpdateMessage): the 128-byte struct
image; the 4 tail padding bytes are modelled as zeros (deserialization
never reads them). -/
def serialize (m : TrackUpdateMessage) : List ℕ :=
  toLE 4 m.messageId ++ (toLE 4 m.trackId ++ (toLE 8 m.timestamp ++
  (toLE 4 m.status ++ (toLE 4 m.classification ++
  (toLE 8 m.range ++ (toLE 8 m.azimuth ++ (toLE 8 m.elevation ++
  (toLE 8 m.rangeRate ++ (toLE 8 m.x ++ (toLE 8 m.y ++ (toLE 8 m.z ++
  (toLE 8 m.vx ++ (toLE 8 m.vy ++ (toLE 8 m.vz ++ (toLE 8 m.trackQuality ++
  (toLE 4 m.hitCount ++ (toLE 4 m.missCount ++ (toLE 4 m.age ++
  List.replicate 4 0))))))))))))))))))

/-- MessageSerializer::deserialize(TrackUpdateMessage): fails when fewer
than `sizeof(TrackUpdateMessage) = 128` bytes are available, otherwise
memcpy's the struct image back field by field. -/
def deserialize (data : List ℕ) : Option TrackUpdateMessage :=
  if data.length < 128 then none
  else some
    { messageId := fromLE ((data.drop 0).take 4)
      trackId := fromLE ((data.drop 4).take 4)
      timestamp := fromLE ((data.drop 8).take 8)
      status := fromLE ((data.drop 16).take 4)
      classification := fromLE ((data.drop 20).take 4)
      range := fromLE ((data.drop 24).take 8)
      azimuth := fromLE ((data.drop 32).take 8)
      elevation := fromLE ((data.drop 40).take 8)
      rangeRate := fromLE ((data.drop 48).take 8)
      x := fromLE ((data.drop 56).take 8)
      y := fromLE ((data.drop 64).take 8)
      z := fromLE ((data.drop 72).take 8)
      vx := fromLE ((data.drop 80).take 8)
      vy := fromLE ((data.drop 88).take 8)
      vz := fromLE ((data.drop 96).take 8)
      trackQuality := fromLE ((data.drop 104).take 8)
      hitCount := fromLE ((data.drop 112).take 4)
      missCount := fromLE ((data.drop 116).take 4)
      age := fromLE ((data.drop 120).take 4) }

end MessageSerializer

/-! ## Clustering (src/src/clustering/)

Labels follow the C++ ints: `-1` undefined, `-2` noise, `≥ 0` a cluster
label.  `std::pow(10.0, strength/10.0)` is the abstract parameter `pow10`
(the centroid weights; they do not affect which detections belong to which
cluster). -/

/-- Zero detection used where the C++ code indexes `dets[idx]` (every
reachable index is in range; the fallback is never observable). -/
def defaultDetection : Detection := ⟨0, 0, 0, 0, 0, 0, 0, 0⟩

/-- Shared body of DBScanClusterer::buildCluster and
RangeClusterer::buildCluster (the two sources are identical): the
strength-weighted spherical centroid, the arithmetic-mean strength, the
detection indices and their count.  The Cartesian centroid (`x,y,z`) stays
at its zero default; ClusterEngine::process fills it in afterwards. -/
def buildClusterFrom (pow10 : ℚ → ℚ) (dets : List Detection)
    (indices : List ℕ) (id : ℕ) : Cluster :=
  let linOf : ℕ → ℚ := fun idx => pow10 ((dets.getD idx defaultDetection).strength / 10)
  let linStrengthSum := (indices.map linOf).sum
  let wsum : (Detection → ℚ) → ℚ := fun f =>
    (indices.map fun idx =>
      (linOf idx / linStrengthSum) * f (dets.getD idx defaultDetection)).sum
  { clusterId := id
    range := wsum (fun d => d.range)
    azimuth := wsum (fun d => d.azimuth)
    elevation := wsum (fun d => d.elevation)
    strength := (indices.map fun idx => (dets.getD idx defaultDetection).strength).sum
                / (indices.length : ℚ)
    snr := wsum (fun d => d.snr)
    rcs := wsum (fun d => d.rcs)
    microDoppler := wsum (fun d => d.microDoppler)
    numDetections := indices.length
    x := 0
    y := 0
    z := 0
    detectionIndices := indices }

/-- DBScanConfig. -/
structure DBScanConfig where
  epsilonRange : ℚ
  epsilonAzimuth : ℚ
  epsilonElevation : ℚ
  minPoints : ℕ

namespace DBScanClusterer

/-- DBScanClusterer::distance compared with 1: the source computes
`√((Δr/εR)² + (Δaz/εA)² + (Δel/εE)²) ≤ 1.0`; both sides are nonnegative
and `√` is monotone, so this is the radicand being ≤ 1. -/
def isNeighbor (cfg : DBScanConfig) (a b : Detection) : Bool :=
  decide (((a.range - b.range) / cfg.epsilonRange) ^ 2 +
          ((a.azimuth - b.azimuth) / cfg.epsilonAzimuth) ^ 2 +
          ((a.elevation - b.elevation) / cfg.epsilonElevation) ^ 2 ≤ 1)

/-- DBScanClusterer::rangeQuery: all indices (the query point included)
within the ε-neighborhood of `dets[idx]`. -/
def rangeQuery (cfg : DBScanConfig) (dets : List Detection) (idx : ℕ) :
    List ℕ :=
  (List.range dets.length).filter fun i =>
    isNeighbor cfg (dets.getD idx defaultDetection) (dets.getD i defaultDetection)

/-- Noise-promotion step at the head of each seed iteration
(`if (labels[q] == NOISE) labels[q] = currentLabel`). -/
def promoteNoise (currentLabel : ℕ) (labels : List ℤ) (q : ℕ) : List ℤ :=
  if labels.getD q 0 = -2 then labels.set q (currentLabel : ℤ) else labels

/-- Seed-set expansion loop of DBScanClusterer::cluster: the seed vector
iterated by index while growing at the back is a FIFO queue.  A noise seed
is absorbed into the current cluster; an undefined seed is labelled and,
when it is a core point, its neighbors still undefined or noise join the
queue.  Termination: each iteration either consumes one queue entry
leaving the number of `-1` labels unchanged, or relabels one `-1` cell. -/
def expand (cfg : DBScanConfig) (dets : List Detection) (currentLabel : ℕ) :
    List ℤ → List ℕ → List ℤ
  | labels, [] => labels
  | labels, q :: queue =>
    if _hq : (promoteNoise currentLabel labels q).getD q 0 = -1 then
      let labels2 := (promoteNoise currentLabel labels q).set q (currentLabel : ℤ)
      let qN := rangeQuery cfg dets q
      expand cfg dets currentLabel labels2
        (if cfg.minPoints ≤ qN.length then
          queue ++ qN.filter (fun nn =>
            labels2.getD nn 0 = -1 || labels2.getD nn 0 = -2)
         else queue)
    else expand cfg dets currentLabel (promoteNoise currentLabel labels q) queue
termination_by labels queue => (labels.count (-1), queue.length)
decreasing_by
  all_goals
    have key : ∀ (l : List ℤ) (q : ℕ) (v : ℤ), v ≠ -1 →
        ((l.getD q 0 = -1 → (l.set q v).count (-1) < l.count (-1)) ∧
         (l.getD q 0 ≠ -1 → (l.set q v).count (-1) = l.count (-1))) := by
      intro l
      induction l with
      | nil =>
        intro q v _hv
        refine ⟨fun hq => absurd hq (by simp [List.getD]), fun _ => by simp⟩
      | cons a t ih =>
        intro q v hv
        cases q with
        | zero =>
          refine ⟨fun hq => ?_, fun hq => ?_⟩
          · have ha : a = -1 := by simpa [List.getD] using hq
            subst ha
            simp [List.count_cons, hv]
          · have ha : ¬ a = -1 := by simpa [List.getD] using hq
            simp [List.count_cons, hv, ha]
        | succ k =>
          refine ⟨fun hq => ?_, fun hq => ?_⟩
          · have hk : t.getD k 0 = -1 := by simpa [List.getD] using hq
            have := (ih k v hv).1 hk
            simp only [List.set, List.count_cons]
            omega
          · have hk : ¬ t.getD k 0 = -1 := by simpa [List.getD] using hq
            have := (ih k v hv).2 hk
            simp only [List.set, List.count_cons]
            omega
  all_goals
    have hpn : ∀ (l : List ℤ) (p : ℕ),
        List.count (-1) (promoteNoise currentLabel l p) = List.count (-1) l := by
      intro l p
      unfold promoteNoise
      split
      next h2 => exact (key l p (currentLabel : ℤ) (by omega)).2 (by omega)
      next => rfl
  · -- core-point branch: one `-1` cell is relabelled
    apply Prod.Lex.left
    calc List.count (-1) ((promoteNoise currentLabel labels q).set q (currentLabel : ℤ))
        < List.count (-1) (promoteNoise currentLabel labels q) :=
          (key (promoteNoise currentLabel labels q) q (currentLabel : ℤ) (by omega)).1 _hq
      _ = List.count (-1) labels := hpn labels q
  · -- skip branch: the queue shrinks and the `-1` count is unchanged
    rw [hpn labels q]
    apply Prod.Lex.right
    simp

/-- Outer labelling loop of DBScanClusterer::cluster over the detection
indices: already-labelled points are skipped, sparse points become noise,
core points start a fresh cluster label and expand it. -/
def mainLoop (cfg : DBScanConfig) (dets : List Detection) :
    List ℕ → List ℤ → ℕ → List ℤ × ℕ
  | [], labels, clusterLabel => (labels, clusterLabel)
  | i :: rest, labels, clusterLabel =>
    if labels.getD i 0 ≠ -1 then mainLoop cfg dets rest labels clusterLabel
    else
      let neighbors := rangeQuery cfg dets i
      if neighbors.length < cfg.minPoints then
        mainLoop cfg dets rest (labels.set i (-2)) clusterLabel
      else
        let labels2 := expand cfg dets clusterLabel
          (labels.set i (clusterLabel : ℤ)) neighbors
        mainLoop cfg dets rest labels2 (clusterLabel + 1)

/-- DBScanClusterer::cluster: label every detection, then emit the labelled
groups in ascending label order (`std::map` iterates keys in order)
followed by one singleton cluster per noise point, with fresh ids
continuing the label counter. -/
def cluster (pow10 : ℚ → ℚ) (cfg : DBScanConfig) (dets : List Detection) :
    List Cluster :=
  if dets.isEmpty then []
  else
    let n := dets.length
    let r := mainLoop cfg dets (List.range n) (List.replicate n (-1)) 0
    let labels := r.1
    let k := r.2
    let core := (List.range k).map fun lab =>
      buildClusterFrom pow10 dets
        ((List.range n).filter fun i => labels.getD i 0 = Int.ofNat lab) lab
    let noiseIdx := (List.range n).filter fun i => labels.getD i 0 = -2
    let noise := noiseIdx.enum.map fun p =>
      buildClusterFrom pow10 dets [p.2] (k + p.1)
    core ++ noise

end DBScanClusterer

/-- RangeBasedConfig gate sizes. -/
structure RangeBasedConfig where
  rangeGateSize : ℚ
  azimuthGateSize : ℚ
  elevationGateSize : ℚ

namespace RangeClusterer

/-- RangeClusterer::inGate: all three axis gates, inclusive. -/
def inGate (cfg : RangeBasedConfig) (a b : Detection) : Bool :=
  decide (|a.range - b.range| ≤ cfg.rangeGateSize ∧
          |a.azimuth - b.azimuth| ≤ cfg.azimuthGateSize ∧
          |a.elevation - b.elevation| ≤ cfg.elevationGateSize)

/-- Ordered insertion by detection range, modelling the `std::sort` of the
index vector (ties are unspecified in C++; insertion realizes one valid
order). -/
def insertByRange (dets : List Detection) (a : ℕ) : List ℕ → List ℕ
  | [] => [a]
  | b :: l =>
    if (dets.getD a defaultDetection).range ≤ (dets.getD b defaultDetection).range
    then a :: b :: l
    else b :: insertByRange dets a l

/-- The sorted index vector `sortedIdx` of RangeClusterer::cluster. -/
def sortIdx (dets : List Detection) : List ℕ :=
  (List.range dets.length).foldr (insertByRange dets) []

/-- Forward sweep of RangeClusterer::cluster from group leader `i` over the
remaining sorted indices: assigned indices are skipped, the sweep breaks
once the range gap to the leader exceeds the range gate, and in-gate
detections join the group and are marked assigned. -/
def sweep (cfg : RangeBasedConfig) (dets : List Detection) (i : ℕ) :
    List ℕ → List Bool → List ℕ × List Bool
  | [], assigned => ([], assigned)
  | j :: rest, assigned =>
    if assigned.getD j false then sweep cfg dets i rest assigned
    else if (dets.getD j defaultDetection).range -
            (dets.getD i defaultDetection).range > cfg.rangeGateSize then
      ([], assigned)
    else if inGate cfg (dets.getD i defaultDetection) (dets.getD j defaultDetection) then
      let r := sweep cfg dets i rest (assigned.set j true)
      (j :: r.1, r.2)
    else sweep cfg dets i rest assigned

/-- Greedy grouping loop of RangeClusterer::cluster over the sorted index
vector: each unassigned index leads a new group built by the forward
sweep. -/
def outer (pow10 : ℚ → ℚ) (cfg : RangeBasedConfig) (dets : List Detection) :
    List ℕ → List Bool → ℕ → List Cluster
  | [], _, _ => []
  | i :: rest, assigned, cid =>
    if assigned.getD i false then outer pow10 cfg dets rest assigned cid
    else
      let r := sweep cfg dets i rest (assigned.set i true)
      buildClusterFrom pow10 dets (i :: r.1) cid ::
        outer pow10 cfg dets rest r.2 (cid + 1)

/-- RangeClusterer::cluster. -/
def cluster (pow10 : ℚ → ℚ) (cfg : RangeBasedConfig)
    (dets : List Detection) : List Cluster :=
  if dets.isEmpty then []
  else outer pow10 cfg dets (sortIdx dets)
    (List.replicate dets.length false) 0

end RangeClusterer

/-! ## Concrete instances used by witnesses and counterexamples -/

/-- Zero 3×3 matrix (a zero measurement-noise input). -/
def ceR0 : Mat3 := fun _ _ => 0

/-- Identity 3×3 matrix. -/
def ceId3 : Mat3 := fun i j => if i = j then 1 else 0

/-- Concrete measurement `(1, 2, 3)`. -/
def ceZ : Vec3 := fun i => (i.val : ℚ) + 1

/-- The uniform 5×5 transition matrix. -/
def ceT : TransMatrix := fun _ _ => 1/5

/-- Stand-in motion models: predict is the identity on state and
covariance (the virtual models are free parameters of the embedding). -/
def ceModels : Fin 5 → ℚ → Vec9 → Mat9 → Vec9 × Mat9 := fun _ _ x P => (x, P)

/-- Stand-in exponential: the constant 1 (nonnegative, as `std::exp`). -/
def ceExp : ℚ → ℚ := fun _ => 1

/-- Stand-in logarithm: the constant 0. -/
def ceLog : ℚ → ℚ := fun _ => 0

/-- A 9×9 covariance whose position variances are 1e-11 (so
`S = H·P·Hᵀ + 0` has determinant 1e-33 < 1e-30 yet all Gauss–Jordan
pivots are 1e-11 ≥ 1e-14). -/
def ceSmallP : Mat9 := fun i j =>
  if i = j ∧ (i.val = 0 ∨ i.val = 3 ∨ i.val = 6) then 1/10^11 else 0

/-- IMM state at the origin with uniform mode probabilities and the
small position covariance. -/
def ceStateSmall : IMMState :=
  { modelStates := fun _ => stateZero
    modelCovariances := fun _ => ceSmallP
    modeProbabilities := fun _ => 1/5
    mergedState := stateZero
    mergedCovariance := ceSmallP }

/-- IMM state at the origin with uniform mode probabilities and zero
covariance. -/
def ceStateZero : IMMState :=
  { modelStates := fun _ => stateZero
    modelCovariances := fun _ => matZero
    modeProbabilities := fun _ => 1/5
    mergedState := stateZero
    mergedCovariance := matZero }

/-- Concrete cluster whose Cartesian centroid is `(1, 1, 1)` (so its
Mahalanobis squared distance from the origin under `S = I` is exactly 3,
the gate boundary in the C6 witness). -/
def ceCluster111 : Cluster :=
  { clusterId := 0, range := 1000, azimuth := 0, elevation := 0
    strength := 0, snr := 0, rcs := 0, microDoppler := 0
    numDetections := 1, x := 1, y := 1, z := 1, detectionIndices := [0] }

/-- Initiation config with m = 2, n = 5, 5 km initiation range and a zero
velocity gate (the additive 100 m floor still applies). -/
def ceInitCfg : InitiationConfig := ⟨2, 5, 5000, 0⟩

/-- Initial-covariance config with stds 10, 5, 1. -/
def ceCovCfg : InitialCovarianceConfig := ⟨10, 5, 1⟩

/-- Uniform initial mode probabilities. -/
def ceUniformProbs : Fin 5 → ℚ := fun _ => 1/5

/-- Cluster at range 1000 with Cartesian centroid at the origin. -/
def ceClusterA : Cluster :=
  { clusterId := 0, range := 1000, azimuth := 0, elevation := 0
    strength := 0, snr := 0, rcs := 0, microDoppler := 0
    numDetections := 1, x := 0, y := 0, z := 0, detectionIndices := [0] }

/-- Same as `ceClusterA` but with Cartesian x = 100. -/
def ceClusterB : Cluster := { ceClusterA with x := 100 }

/-- Two initiator calls one microsecond apart: cluster A at t = 0 µs
creates a candidate, cluster B at t = 1 µs gates onto it and promotes. -/
def ceInitStep2 : TrackInitiator.InitStep :=
  TrackInitiator.processCandidates ceInitCfg ceCovCfg ceUniformProbs
    [ceClusterB] 1 1
    (TrackInitiator.processCandidates ceInitCfg ceCovCfg ceUniformProbs
      [ceClusterA] 0 0 ⟨[], [], 0⟩)

/-! ## Association partition predicates (for the C1 statement) -/

/-- Track-side partition of an association output: every track index below
`nT` occurs in exactly one of the matched triples or the unmatched-track
list, all indices are in range, and the matched/unmatched counts add up to
the number of input tracks. -/
def TrackPartition (nT : ℕ) (out : AssociationOutput) : Prop :=
  (∀ t, t < nT →
    out.matched.countP (fun m => m.trackIndex == t)
      + out.unmatchedTracks.count t = 1)
  ∧ (∀ m ∈ out.matched, m.trackIndex < nT)
  ∧ (∀ t ∈ out.unmatchedTracks, t < nT)
  ∧ out.matched.length + out.unmatchedTracks.length = nT

/-- Cluster-side partition, symmetric to `TrackPartition`. -/
def ClusterPartition (nC : ℕ) (out : AssociationOutput) : Prop :=
  (∀ c, c < nC →
    out.matched.countP (fun m => m.clusterIndex == c)
      + out.unmatchedClusters.count c = 1)
  ∧ (∀ m ∈ out.matched, m.clusterIndex < nC)
  ∧ (∀ c ∈ out.unmatchedClusters, c < nC)
  ∧ out.matched.length + out.unmatchedClusters.length = nC

/-- Weak cluster side: every cluster index below `nC` is either unmatched
(exactly once in the unmatched list, and in no matched triple) or occurs
in at least one matched triple (possibly several) and not in the
unmatched list. -/
def WeakClusterPartition (nC : ℕ) (out : AssociationOutput) : Prop :=
  (∀ c, c < nC →
    (out.matched.countP (fun m => m.clusterIndex == c) = 0
      ∧ out.unmatchedClusters.count c = 1)
    ∨ (0 < out.matched.countP (fun m => m.clusterIndex == c)
      ∧ out.unmatchedClusters.count c = 0))
  ∧ (∀ c ∈ out.unmatchedClusters, c < nC)


/-- The no-double-booking relation of the nearest-neighbor greedy
acceptance loop: two accepted matches share neither their track nor
their cluster index. -/
def DistinctPair (a b : AssociationResult) : Prop :=
  a.trackIndex ≠ b.trackIndex ∧ a.clusterIndex ≠ b.clusterIndex

/-- Invariant of the greedy assignment passes of
GNNAssociator::hungarianAssignment: the assignment and column-used
arrays keep their lengths, every assigned column is in range and marked
used, and no two rows share a column. -/
def AssignInv (nT n : ℕ) (st : List (Option ℕ) × List Bool) : Prop :=
  st.1.length = nT ∧ st.2.length = n
  ∧ (∀ i j, st.1.getD i none = some j → j < n ∧ st.2.getD j false = true)
  ∧ (∀ i i' j, st.1.getD i none = some j → st.1.getD i' none = some j →
      i = i')


/-- Partition property of a clusterer output (the C10 statement): every
input detection index below `n` appears in the detectionIndices of
exactly one output cluster (and exactly once there), all stored indices
are in range, and every cluster's numDetections equals the length of its
detectionIndices. -/
def ClustererPartition (n : ℕ) (out : List Cluster) : Prop :=
  (∀ i, i < n → (out.map fun c => c.detectionIndices.count i).sum = 1)
  ∧ (∀ c ∈ out, ∀ i ∈ c.detectionIndices, i < n)
  ∧ (∀ c ∈ out, c.numDetections = c.detectionIndices.length)

/-! ## Theorems -/

theorem isValid_iff_specPasses (cfg : PreprocessConfig) (d : Detection) :
    Preprocessor.isValid cfg d = true ↔ Preprocessor.specPasses cfg d := by
  unfold Preprocessor.isValid Preprocessor.specPasses
  split_ifs with h1 h2 h3 h4 h5 h6
  · simp only [false_iff]
    intro hs
    rcases h1 with h | h
    · exact absurd hs.1.1 (not_le.mpr h)
    · exact absurd hs.1.2 (not_le.mpr h)
  · simp only [false_iff]
    intro hs
    rcases h2 with h | h
    · exact absurd hs.2.1.1 (not_le.mpr h)
    · exact absurd hs.2.1.2 (not_le.mpr h)
  · simp only [false_iff]
    intro hs
    rcases h3 with h | h
    · exact absurd hs.2.2.1.1 (not_le.mpr h)
    · exact absurd hs.2.2.1.2 (not_le.mpr h)
  · simp only [false_iff]
    intro hs
    rcases h4 with h | h
    · exact absurd hs.2.2.2.1.1 (not_le.mpr h)
    · exact absurd hs.2.2.2.1.2 (not_le.mpr h)
  · simp only [false_iff]
    intro hs
    rcases h5 with h | h
    · exact absurd hs.2.2.2.2.1.1 (not_le.mpr h)
    · exact absurd hs.2.2.2.2.1.2 (not_le.mpr h)
  · simp only [false_iff]
    intro hs
    rcases h6 with h | h
    · exact absurd hs.2.2.2.2.2.1 (not_le.mpr h)
    · exact absurd hs.2.2.2.2.2.2 (not_le.mpr h)
  · simp only [true_iff]
    push_neg at h1 h2 h3 h4 h5 h6
    exact ⟨⟨h1.1, h1.2⟩, ⟨h2.1, h2.2⟩, ⟨h3.1, h3.2⟩, ⟨h4.1, h4.2⟩,
           ⟨h5.1, h5.2⟩, ⟨h6.1, h6.2⟩⟩

/-- C7: Preprocessor::process returns exactly those input detections whose
range, azimuth, elevation, SNR, RCS and strength all lie inclusively
within their configured min/max intervals — the output is the input
filtered by the spec's inclusive-interval predicate, hence an ordered
subsequence of the input, and a detection failing any one bound is
excluded. -/
theorem preprocessor_process_spec (cfg : PreprocessConfig)
    (raw : List Detection) :
    Preprocessor.process cfg raw
        = raw.filter (fun d => decide (Preprocessor.specPasses cfg d))
    ∧ (Preprocessor.process cfg raw).Sublist raw
    ∧ ∀ d, d ∈ Preprocessor.process cfg raw ↔
        d ∈ raw ∧ Preprocessor.specPasses cfg d := by
  have hb : ∀ d, Preprocessor.isValid cfg d
      = decide (Preprocessor.specPasses cfg d) := by
    intro d
    by_cases hp : Preprocessor.specPasses cfg d
    · rw [(isValid_iff_specPasses cfg d).2 hp]
      simp [hp]
    · rw [decide_eq_false hp]
      exact Bool.eq_false_iff.mpr
        (fun hc => hp ((isValid_iff_specPasses cfg d).1 hc))
  have hfe : Preprocessor.process cfg raw
      = raw.filter (fun d => decide (Preprocessor.specPasses cfg d)) := by
    unfold Preprocessor.process
    exact List.filter_congr (fun d _ => hb d)
  refine ⟨hfe, ?_, ?_⟩
  · exact List.filter_sublist raw
  · intro d
    rw [hfe, List.mem_filter]
    simp

/-- C8: the classification heuristic evaluates its rules in the fixed
precedence of the source on speed and the per-family probability sums
CV = μ₀, CA = μ₁+μ₂, CTR = μ₃+μ₄: Clutter iff speed < 2; else DroneRotary
iff CTR > 0.4 and 5 < speed < 30; else DroneFixedWing iff CV > 0.3 and
15 < speed < 80; else Bird iff CA > 0.3 and 5 < speed < 25; otherwise
Unknown. -/
theorem classification_rules (speed : ℚ) (probs : Fin 5 → ℚ) :
    (TrackManager.classifyTrack speed probs = .Clutter ↔ speed < 2)
    ∧ (TrackManager.classifyTrack speed probs = .DroneRotary ↔
        ¬ speed < 2 ∧ (probs 3 + probs 4 > 2/5 ∧ 5 < speed ∧ speed < 30))
    ∧ (TrackManager.classifyTrack speed probs = .DroneFixedWing ↔
        ¬ speed < 2 ∧ ¬ (probs 3 + probs 4 > 2/5 ∧ 5 < speed ∧ speed < 30)
        ∧ (probs 0 > 3/10 ∧ 15 < speed ∧ speed < 80))
    ∧ (TrackManager.classifyTrack speed probs = .Bird ↔
        ¬ speed < 2 ∧ ¬ (probs 3 + probs 4 > 2/5 ∧ 5 < speed ∧ speed < 30)
        ∧ ¬ (probs 0 > 3/10 ∧ 15 < speed ∧ speed < 80)
        ∧ (probs 1 + probs 2 > 3/10 ∧ 5 < speed ∧ speed < 25))
    ∧ (TrackManager.classifyTrack speed probs = .Unknown ↔
        ¬ speed < 2 ∧ ¬ (probs 3 + probs 4 > 2/5 ∧ 5 < speed ∧ speed < 30)
        ∧ ¬ (probs 0 > 3/10 ∧ 15 < speed ∧ speed < 80)
        ∧ ¬ (probs 1 + probs 2 > 3/10 ∧ 5 < speed ∧ speed < 25)) := by
  simp only [TrackManager.classifyTrack]
  split_ifs with h1 h2 h3 h4
  · exact ⟨iff_of_true rfl h1,
      iff_of_false (by decide)
        (fun hr => hr.1 h1),
      iff_of_false (by decide)
        (fun hr => hr.1 h1),
      iff_of_false (by decide)
        (fun hr => hr.1 h1),
      iff_of_false (by decide)
        (fun hr => hr.1 h1)⟩
  · exact ⟨iff_of_false (by decide) h1,
      iff_of_true rfl ⟨h1, h2⟩,
      iff_of_false (by decide)
        (fun hr => hr.2.1 h2),
      iff_of_false (by decide)
        (fun hr => hr.2.1 h2),
      iff_of_false (by decide)
        (fun hr => hr.2.1 h2)⟩
  · exact ⟨iff_of_false (by decide) h1,
      iff_of_false (by decide)
        (fun hr => h2 hr.2),
      iff_of_true rfl ⟨h1, h2, h3⟩,
      iff_of_false (by decide)
        (fun hr => hr.2.2.1 h3),
      iff_of_false (by decide)
        (fun hr => hr.2.2.1 h3)⟩
  · exact ⟨iff_of_false (by decide) h1,
      iff_of_false (by decide)
        (fun hr => h2 hr.2),
      iff_of_false (by decide)
        (fun hr => h3 hr.2.2),
      iff_of_true rfl ⟨h1, h2, h3, h4.2.2, h4.1, h4.2.1⟩,
      iff_of_false (by decide)
        (fun hr => hr.2.2.2 ⟨h4.2.2, h4.1, h4.2.1⟩)⟩
  · exact ⟨iff_of_false (by decide) h1,
      iff_of_false (by decide)
        (fun hr => h2 hr.2),
      iff_of_false (by decide)
        (fun hr => h3 hr.2.2),
      iff_of_false (by decide)
        (fun hr => h4 ⟨hr.2.2.2.2.1, hr.2.2.2.2.2, hr.2.2.2.1⟩),
      iff_of_true rfl
        ⟨h1, h2, h3, fun hc => h4 ⟨hc.2.1, hc.2.2, hc.1⟩⟩⟩

/-- C4: the track status machine of maintainTracks/deleteTracks — a
Tentative track becomes Confirmed exactly when hitCount ≥ confirmHits; a
Confirmed track becomes Coasting exactly when consecutiveMisses > 0; a
Coasting track returns to Confirmed exactly when consecutiveMisses = 0
(and no other transition is possible in those states); a non-Deleted track
is marked Deleted exactly when consecutiveMisses ≥ maxCoastingDwells or
quality < minQuality or range > maxRange; Deleted is a sink state for both
phases; and the end-of-dwell prune leaves no Deleted track in the list. -/
theorem track_lifecycle_transitions (mcfg : MaintenanceConfig)
    (dcfg : DeletionConfig) (t : LTrack) (ts : List LTrack) :
    (t.status = .Tentative →
      ((TrackManager.maintainTrack mcfg t).status = .Confirmed ↔
        mcfg.confirmHits ≤ t.hitCount)
      ∧ ((TrackManager.maintainTrack mcfg t).status = .Confirmed ∨
         (TrackManager.maintainTrack mcfg t).status = .Tentative))
    ∧ (t.status = .Confirmed →
      ((TrackManager.maintainTrack mcfg t).status = .Coasting ↔
        0 < t.consecutiveMisses)
      ∧ ((TrackManager.maintainTrack mcfg t).status = .Coasting ∨
         (TrackManager.maintainTrack mcfg t).status = .Confirmed))
    ∧ (t.status = .Coasting →
      ((TrackManager.maintainTrack mcfg t).status = .Confirmed ↔
        t.consecutiveMisses = 0)
      ∧ ((TrackManager.maintainTrack mcfg t).status = .Confirmed ∨
         (TrackManager.maintainTrack mcfg t).status = .Coasting))
    ∧ (¬ t.status = .Deleted →
      ((TrackManager.markDeleted dcfg t).status = .Deleted ↔
        (dcfg.maxCoastingDwells ≤ t.consecutiveMisses ∨
         t.quality < dcfg.minQuality ∨ dcfg.maxRange < t.range)))
    ∧ (t.status = .Deleted →
      TrackManager.maintainTrack mcfg t = t ∧
      TrackManager.markDeleted dcfg t = t)
    ∧ (∀ u ∈ TrackManager.deleteTracks dcfg ts, ¬ u.status = .Deleted) := by
  refine ⟨?_, ?_, ?_, ?_, ?_, ?_⟩
  · intro hst
    simp only [TrackManager.maintainTrack, hst]
    split_ifs <;> simp_all
  · intro hst
    simp only [TrackManager.maintainTrack, hst]
    split_ifs <;> simp_all
  · intro hst
    simp only [TrackManager.maintainTrack, hst]
    split_ifs <;> simp_all
  · intro hst
    simp only [TrackManager.markDeleted]
    rw [if_neg hst]
    split_ifs <;> simp_all
  · intro hst
    constructor
    · simp [TrackManager.maintainTrack, hst]
    · simp [TrackManager.markDeleted, hst]
  · intro u hu
    unfold TrackManager.deleteTracks at hu
    have := List.of_mem_filter hu
    simpa using this

theorem length_toLE (w v : ℕ) : (MessageSerializer.toLE w v).length = w := by
  induction w generalizing v with
  | zero => rfl
  | succ w ih => simp [MessageSerializer.toLE, ih]

theorem fromLE_toLE (w v : ℕ) (h : v < 256 ^ w) :
    MessageSerializer.fromLE (MessageSerializer.toLE w v) = v := by
  induction w generalizing v with
  | zero =>
    simp only [MessageSerializer.toLE, MessageSerializer.fromLE]
    omega
  | succ w ih =>
    have hdiv : v / 256 < 256 ^ w := by
      rw [Nat.div_lt_iff_lt_mul (by norm_num)]
      calc v < 256 ^ (w + 1) := h
        _ = 256 ^ w * 256 := by ring
    simp only [MessageSerializer.toLE, MessageSerializer.fromLE, ih _ hdiv]
    omega

/-- C9: serializing a TrackUpdateMessage and deserializing the produced
128-byte buffer succeeds and reproduces every field bit-exactly. -/
theorem trackUpdateMessage_roundtrip (m : TrackUpdateMessage) (h : m.WF) :
    MessageSerializer.deserialize (MessageSerializer.serialize m) = some m := by
  obtain ⟨f1, f2, f3, f4, f5, f6, f7, f8, f9, f10, f11, f12, f13, f14, f15, f16, f17, f18, f19⟩ := m
  obtain ⟨h1, h2, h3, h4, h5, h6, h7, h8, h9, h10, h11, h12, h13, h14, h15, h16, h17, h18, h19⟩ := h
  norm_num at h1 h2 h3 h4 h5 h6 h7 h8 h9 h10 h11 h12 h13 h14 h15 h16 h17 h18 h19
  have D0 : (MessageSerializer.serialize (⟨f1, f2, f3, f4, f5, f6, f7, f8, f9, f10, f11, f12, f13, f14, f15, f16, f17, f18, f19⟩ : TrackUpdateMessage)).drop 0 = MessageSerializer.toLE 4 f1 ++ (MessageSerializer.toLE 4 f2 ++ (MessageSerializer.toLE 8 f3 ++ (MessageSerializer.toLE 4 f4 ++ (MessageSerializer.toLE 4 f5 ++ (MessageSerializer.toLE 8 f6 ++ (MessageSerializer.toLE 8 f7 ++ (MessageSerializer.toLE 8 f8 ++ (MessageSerializer.toLE 8 f9 ++ (MessageSerializer.toLE 8 f10 ++ (MessageSerializer.toLE 8 f11 ++ (MessageSerializer.toLE 8 f12 ++ (MessageSerializer.toLE 8 f13 ++ (MessageSerializer.toLE 8 f14 ++ (MessageSerializer.toLE 8 f15 ++ (MessageSerializer.toLE 8 f16 ++ (MessageSerializer.toLE 4 f17 ++ (MessageSerializer.toLE 4 f18 ++ (MessageSerializer.toLE 4 f19 ++ (List.replicate 4 0))))))))))))))))))) := by
    simp only [List.drop_zero]; rfl
  have D1 : (MessageSerializer.serialize (⟨f1, f2, f3, f4, f5, f6, f7, f8, f9, f10, f11, f12, f13, f14, f15, f16, f17, f18, f19⟩ : TrackUpdateMessage)).drop 4 = MessageSerializer.toLE 4 f2 ++ (MessageSerializer.toLE 8 f3 ++ (MessageSerializer.toLE 4 f4 ++ (MessageSerializer.toLE 4 f5 ++ (MessageSerializer.toLE 8 f6 ++ (MessageSerializer.toLE 8 f7 ++ (MessageSerializer.toLE 8 f8 ++ (MessageSerializer.toLE 8 f9 ++ (MessageSerializer.toLE 8 f10 ++ (MessageSerializer.toLE 8 f11 ++ (MessageSerializer.toLE 8 f12 ++ (MessageSerializer.toLE 8 f13 ++ (MessageSerializer.toLE 8 f14 ++ (MessageSerializer.toLE 8 f15 ++ (MessageSerializer.toLE 8 f16 ++ (MessageSerializer.toLE 4 f17 ++ (MessageSerializer.toLE 4 f18 ++ (MessageSerializer.toLE 4 f19 ++ (List.replicate 4 0)))))))))))))))))) := by
    have d := congrArg (List.drop 4) D0
    rw [List.drop_drop, List.drop_left' (length_toLE 4 f1)] at d
    exact d
  have D2 : (MessageSerializer.serialize (⟨f1, f2, f3, f4, f5, f6, f7, f8, f9, f10, f11, f12, f13, f14, f15, f16, f17, f18, f19⟩ : TrackUpdateMessage)).drop 8 = MessageSerializer.toLE 8 f3 ++ (MessageSerializer.toLE 4 f4 ++ (MessageSerializer.toLE 4 f5 ++ (MessageSerializer.toLE 8 f6 ++ (MessageSerializer.toLE 8 f7 ++ (MessageSerializer.toLE 8 f8 ++ (MessageSerializer.toLE 8 f9 ++ (MessageSerializer.toLE 8 f10 ++ (MessageSerializer.toLE 8 f11 ++ (MessageSerializer.toLE 8 f12 ++ (MessageSerializer.toLE 8 f13 ++ (MessageSerializer.toLE 8 f14 ++ (MessageSerializer.toLE 8 f15 ++ (MessageSerializer.toLE 8 f16 ++ (MessageSerializer.toLE 4 f17 ++ (MessageSerializer.toLE 4 f18 ++ (MessageSerializer.toLE 4 f19 ++ (List.replicate 4 0))))))))))))))))) := by
    have d := congrArg (List.drop 4) D1
    rw [List.drop_drop, List.drop_left' (length_toLE 4 f2)] at d
    exact d
  have D3 : (MessageSerializer.serialize (⟨f1, f2, f3, f4, f5, f6, f7, f8, f9, f10, f11, f12, f13, f14, f15, f16, f17, f18, f19⟩ : TrackUpdateMessage)).drop 16 = MessageSerializer.toLE 4 f4 ++ (MessageSerializer.toLE 4 f5 ++ (MessageSerializer.toLE 8 f6 ++ (MessageSerializer.toLE 8 f7 ++ (MessageSerializer.toLE 8 f8 ++ (MessageSerializer.toLE 8 f9 ++ (MessageSerializer.toLE 8 f10 ++ (MessageSerializer.toLE 8 f11 ++ (MessageSerializer.toLE 8 f12 ++ (MessageSerializer.toLE 8 f13 ++ (MessageSerializer.toLE 8 f14 ++ (MessageSerializer.toLE 8 f15 ++ (MessageSerializer.toLE 8 f16 ++ (MessageSerializer.toLE 4 f17 ++ (MessageSerializer.toLE 4 f18 ++ (MessageSerializer.toLE 4 f19 ++ (List.replicate 4 0)))))))))))))))) := by
    have d := congrArg (List.drop 8) D2
    rw [List.drop_drop, List.drop_left' (length_toLE 8 f3)] at d
    exact d
  have D4 : (MessageSerializer.serialize (⟨f1, f2, f3, f4, f5, f6, f7, f8, f9, f10, f11, f12, f13, f14, f15, f16, f17, f18, f19⟩ : TrackUpdateMessage)).drop 20 = MessageSerializer.toLE 4 f5 ++ (MessageSerializer.toLE 8 f6 ++ (MessageSerializer.toLE 8 f7 ++ (MessageSerializer.toLE 8 f8 ++ (MessageSerializer.toLE 8 f9 ++ (MessageSerializer.toLE 8 f10 ++ (MessageSerializer.toLE 8 f11 ++ (MessageSerializer.toLE 8 f12 ++ (MessageSerializer.toLE 8 f13 ++ (MessageSerializer.toLE 8 f14 ++ (MessageSerializer.toLE 8 f15 ++ (MessageSerializer.toLE 8 f16 ++ (MessageSerializer.toLE 4 f17 ++ (MessageSerializer.toLE 4 f18 ++ (MessageSerializer.toLE 4 f19 ++ (List.replicate 4 0))))))))))))))) := by
    have d := congrArg (List.drop 4) D3
    rw [List.drop_drop, List.drop_left' (length_toLE 4 f4)] at d
    exact d
  have D5 : (MessageSerializer.serialize (⟨f1, f2, f3, f4, f5, f6, f7, f8, f9, f10, f11, f12, f13, f14, f15, f16, f17, f18, f19⟩ : TrackUpdateMessage)).drop 24 = MessageSerializer.toLE 8 f6 ++ (MessageSerializer.toLE 8 f7 ++ (MessageSerializer.toLE 8 f8 ++ (MessageSerializer.toLE 8 f9 ++ (MessageSerializer.toLE 8 f10 ++ (MessageSerializer.toLE 8 f11 ++ (MessageSerializer.toLE 8 f12 ++ (MessageSerializer.toLE 8 f13 ++ (MessageSerializer.toLE 8 f14 ++ (MessageSerializer.toLE 8 f15 ++ (MessageSerializer.toLE 8 f16 ++ (MessageSerializer.toLE 4 f17 ++ (MessageSerializer.toLE 4 f18 ++ (MessageSerializer.toLE 4 f19 ++ (List.replicate 4 0)))))))))))))) := by
    have d := congrArg (List.drop 4) D4
    rw [List.drop_drop, List.drop_left' (length_toLE 4 f5)] at d
    exact d
  have D6 : (MessageSerializer.serialize (⟨f1, f2, f3, f4, f5, f6, f7, f8, f9, f10, f11, f12, f13, f14, f15, f16, f17, f18, f19⟩ : TrackUpdateMessage)).drop 32 = MessageSerializer.toLE 8 f7 ++ (MessageSerializer.toLE 8 f8 ++ (MessageSerializer.toLE 8 f9 ++ (MessageSerializer.toLE 8 f10 ++ (MessageSerializer.toLE 8 f11 ++ (MessageSerializer.toLE 8 f12 ++ (MessageSerializer.toLE 8 f13 ++ (MessageSerializer.toLE 8 f14 ++ (MessageSerializer.toLE 8 f15 ++ (MessageSerializer.toLE 8 f16 ++ (MessageSerializer.toLE 4 f17 ++ (MessageSerializer.toLE 4 f18 ++ (MessageSerializer.toLE 4 f19 ++ (List.replicate 4 0))))))))))))) := by
    have d := congrArg (List.drop 8) D5
    rw [List.drop_drop, List.drop_left' (length_toLE 8 f6)] at d
    exact d
  have D7 : (MessageSerializer.serialize (⟨f1, f2, f3, f4, f5, f6, f7, f8, f9, f10, f11, f12, f13, f14, f15, f16, f17, f18, f19⟩ : TrackUpdateMessage)).drop 40 = MessageSerializer.toLE 8 f8 ++ (MessageSerializer.toLE 8 f9 ++ (MessageSerializer.toLE 8 f10 ++ (MessageSerializer.toLE 8 f11 ++ (MessageSerializer.toLE 8 f12 ++ (MessageSerializer.toLE 8 f13 ++ (MessageSerializer.toLE 8 f14 ++ (MessageSerializer.toLE 8 f15 ++ (MessageSerializer.toLE 8 f16 ++ (MessageSerializer.toLE 4 f17 ++ (MessageSerializer.toLE 4 f18 ++ (MessageSerializer.toLE 4 f19 ++ (List.replicate 4 0)))))))))))) := by
    have d := congrArg (List.drop 8) D6
    rw [List.drop_drop, List.drop_left' (length_toLE 8 f7)] at d
    exact d
  have D8 : (MessageSerializer.serialize (⟨f1, f2, f3, f4, f5, f6, f7, f8, f9, f10, f11, f12, f13, f14, f15, f16, f17, f18, f19⟩ : TrackUpdateMessage)).drop 48 = MessageSerializer.toLE 8 f9 ++ (MessageSerializer.toLE 8 f10 ++ (MessageSerializer.toLE 8 f11 ++ (MessageSerializer.toLE 8 f12 ++ (MessageSerializer.toLE 8 f13 ++ (MessageSerializer.toLE 8 f14 ++ (MessageSerializer.toLE 8 f15 ++ (MessageSerializer.toLE 8 f16 ++ (MessageSerializer.toLE 4 f17 ++ (MessageSerializer.toLE 4 f18 ++ (MessageSerializer.toLE 4 f19 ++ (List.replicate 4 0))))))))))) := by
    have d := congrArg (List.drop 8) D7
    rw [List.drop_drop, List.drop_left' (length_toLE 8 f8)] at d
    exact d
  have D9 : (MessageSerializer.serialize (⟨f1, f2, f3, f4, f5, f6, f7, f8, f9, f10, f11, f12, f13, f14, f15, f16, f17, f18, f19⟩ : TrackUpdateMessage)).drop 56 = MessageSerializer.toLE 8 f10 ++ (MessageSerializer.toLE 8 f11 ++ (MessageSerializer.toLE 8 f12 ++ (MessageSerializer.toLE 8 f13 ++ (MessageSerializer.toLE 8 f14 ++ (MessageSerializer.toLE 8 f15 ++ (MessageSerializer.toLE 8 f16 ++ (MessageSerializer.toLE 4 f17 ++ (MessageSerializer.toLE 4 f18 ++ (MessageSerializer.toLE 4 f19 ++ (List.replicate 4 0)))))))))) := by
    have d := congrArg (List.drop 8) D8
    rw [List.drop_drop, List.drop_left' (length_toLE 8 f9)] at d
    exact d
  have D10 : (MessageSerializer.serialize (⟨f1, f2, f3, f4, f5, f6, f7, f8, f9, f10, f11, f12, f13, f14, f15, f16, f17, f18, f19⟩ : TrackUpdateMessage)).drop 64 = MessageSerializer.toLE 8 f11 ++ (MessageSerializer.toLE 8 f12 ++ (MessageSerializer.toLE 8 f13 ++ (MessageSerializer.toLE 8 f14 ++ (MessageSerializer.toLE 8 f15 ++ (MessageSerializer.toLE 8 f16 ++ (MessageSerializer.toLE 4 f17 ++ (MessageSerializer.toLE 4 f18 ++ (MessageSerializer.toLE 4 f19 ++ (List.replicate 4 0))))))))) := by
    have d := congrArg (List.drop 8) D9
    rw [List.drop_drop, List.drop_left' (length_toLE 8 f10)] at d
    exact d
  have D11 : (MessageSerializer.serialize (⟨f1, f2, f3, f4, f5, f6, f7, f8, f9, f10, f11, f12, f13, f14, f15, f16, f17, f18, f19⟩ : TrackUpdateMessage)).drop 72 = MessageSerializer.toLE 8 f12 ++ (MessageSerializer.toLE 8 f13 ++ (MessageSerializer.toLE 8 f14 ++ (MessageSerializer.toLE 8 f15 ++ (MessageSerializer.toLE 8 f16 ++ (MessageSerializer.toLE 4 f17 ++ (MessageSerializer.toLE 4 f18 ++ (MessageSerializer.toLE 4 f19 ++ (List.replicate 4 0)))))))) := by
    have d := congrArg (List.drop 8) D10
    rw [List.drop_drop, List.drop_left' (length_toLE 8 f11)] at d
    exact d
  have D12 : (MessageSerializer.serialize (⟨f1, f2, f3, f4, f5, f6, f7, f8, f9, f10, f11, f12, f13, f14, f15, f16, f17, f18, f19⟩ : TrackUpdateMessage)).drop 80 = MessageSerializer.toLE 8 f13 ++ (MessageSerializer.toLE 8 f14 ++ (MessageSerializer.toLE 8 f15 ++ (MessageSerializer.toLE 8 f16 ++ (MessageSerializer.toLE 4 f17 ++ (MessageSerializer.toLE 4 f18 ++ (MessageSerializer.toLE 4 f19 ++ (List.replicate 4 0))))))) := by
    have d := congrArg (List.drop 8) D11
    rw [List.drop_drop, List.drop_left' (length_toLE 8 f12)] at d
    exact d
  have D13 : (MessageSerializer.serialize (⟨f1, f2, f3, f4, f5, f6, f7, f8, f9, f10, f11, f12, f13, f14, f15, f16, f17, f18, f19⟩ : TrackUpdateMessage)).drop 88 = MessageSerializer.toLE 8 f14 ++ (MessageSerializer.toLE 8 f15 ++ (MessageSerializer.toLE 8 f16 ++ (MessageSerializer.toLE 4 f17 ++ (MessageSerializer.toLE 4 f18 ++ (MessageSerializer.toLE 4 f19 ++ (List.replicate 4 0)))))) := by
    have d := congrArg (List.drop 8) D12
    rw [List.drop_drop, List.drop_left' (length_toLE 8 f13)] at d
    exact d
  have D14 : (MessageSerializer.serialize (⟨f1, f2, f3, f4, f5, f6, f7, f8, f9, f10, f11, f12, f13, f14, f15, f16, f17, f18, f19⟩ : TrackUpdateMessage)).drop 96 = MessageSerializer.toLE 8 f15 ++ (MessageSerializer.toLE 8 f16 ++ (MessageSerializer.toLE 4 f17 ++ (MessageSerializer.toLE 4 f18 ++ (MessageSerializer.toLE 4 f19 ++ (List.replicate 4 0))))) := by
    have d := congrArg (List.drop 8) D13
    rw [List.drop_drop, List.drop_left' (length_toLE 8 f14)] at d
    exact d
  have D15 : (MessageSerializer.serialize (⟨f1, f2, f3, f4, f5, f6, f7, f8, f9, f10, f11, f12, f13, f14, f15, f16, f17, f18, f19⟩ : TrackUpdateMessage)).drop 104 = MessageSerializer.toLE 8 f16 ++ (MessageSerializer.toLE 4 f17 ++ (MessageSerializer.toLE 4 f18 ++ (MessageSerializer.toLE 4 f19 ++ (List.replicate 4 0)))) := by
    have d := congrArg (List.drop 8) D14
    rw [List.drop_drop, List.drop_left' (length_toLE 8 f15)] at d
    exact d
  have D16 : (MessageSerializer.serialize (⟨f1, f2, f3, f4, f5, f6, f7, f8, f9, f10, f11, f12, f13, f14, f15, f16, f17, f18, f19⟩ : TrackUpdateMessage)).drop 112 = MessageSerializer.toLE 4 f17 ++ (MessageSerializer.toLE 4 f18 ++ (MessageSerializer.toLE 4 f19 ++ (List.replicate 4 0))) := by
    have d := congrArg (List.drop 8) D15
    rw [List.drop_drop, List.drop_left' (length_toLE 8 f16)] at d
    exact d
  have D17 : (MessageSerializer.serialize (⟨f1, f2, f3, f4, f5, f6, f7, f8, f9, f10, f11, f12, f13, f14, f15, f16, f17, f18, f19⟩ : TrackUpdateMessage)).drop 116 = MessageSerializer.toLE 4 f18 ++ (MessageSerializer.toLE 4 f19 ++ (List.replicate 4 0)) := by
    have d := congrArg (List.drop 4) D16
    rw [List.drop_drop, List.drop_left' (length_toLE 4 f17)] at d
    exact d
  have D18 : (MessageSerializer.serialize (⟨f1, f2, f3, f4, f5, f6, f7, f8, f9, f10, f11, f12, f13, f14, f15, f16, f17, f18, f19⟩ : TrackUpdateMessage)).drop 120 = MessageSerializer.toLE 4 f19 ++ (List.replicate 4 0) := by
    have d := congrArg (List.drop 4) D17
    rw [List.drop_drop, List.drop_left' (length_toLE 4 f18)] at d
    exact d
  have F1 : MessageSerializer.fromLE (((MessageSerializer.serialize (⟨f1, f2, f3, f4, f5, f6, f7, f8, f9, f10, f11, f12, f13, f14, f15, f16, f17, f18, f19⟩ : TrackUpdateMessage)).drop 0).take 4) = f1 := by
    rw [D0, List.take_left' (length_toLE 4 f1)]
    exact fromLE_toLE 4 f1 (by norm_num; omega)
  have F2 : MessageSerializer.fromLE (((MessageSerializer.serialize (⟨f1, f2, f3, f4, f5, f6, f7, f8, f9, f10, f11, f12, f13, f14, f15, f16, f17, f18, f19⟩ : TrackUpdateMessage)).drop 4).take 4) = f2 := by
    rw [D1, List.take_left' (length_toLE 4 f2)]
    exact fromLE_toLE 4 f2 (by norm_num; omega)
  have F3 : MessageSerializer.fromLE (((MessageSerializer.serialize (⟨f1, f2, f3, f4, f5, f6, f7, f8, f9, f10, f11, f12, f13, f14, f15, f16, f17, f18, f19⟩ : TrackUpdateMessage)).drop 8).take 8) = f3 := by
    rw [D2, List.take_left' (length_toLE 8 f3)]
    exact fromLE_toLE 8 f3 (by norm_num; omega)
  have F4 : MessageSerializer.fromLE (((MessageSerializer.serialize (⟨f1, f2, f3, f4, f5, f6, f7, f8, f9, f10, f11, f12, f13, f14, f15, f16, f17, f18, f19⟩ : TrackUpdateMessage)).drop 16).take 4) = f4 := by
    rw [D3, List.take_left' (length_toLE 4 f4)]
    exact fromLE_toLE 4 f4 (by norm_num; omega)
  have F5 : MessageSerializer.fromLE (((MessageSerializer.serialize (⟨f1, f2, f3, f4, f5, f6, f7, f8, f9, f10, f11, f12, f13, f14, f15, f16, f17, f18, f19⟩ : TrackUpdateMessage)).drop 20).take 4) = f5 := by
    rw [D4, List.take_left' (length_toLE 4 f5)]
    exact fromLE_toLE 4 f5 (by norm_num; omega)
  have F6 : MessageSerializer.fromLE (((MessageSerializer.serialize (⟨f1, f2, f3, f4, f5, f6, f7, f8, f9, f10, f11, f12, f13, f14, f15, f16, f17, f18, f19⟩ : TrackUpdateMessage)).drop 24).take 8) = f6 := by
    rw [D5, List.take_left' (length_toLE 8 f6)]
    exact fromLE_toLE 8 f6 (by norm_num; omega)
  have F7 : MessageSerializer.fromLE (((MessageSerializer.serialize (⟨f1, f2, f3, f4, f5, f6, f7, f8, f9, f10, f11, f12, f13, f14, f15, f16, f17, f18, f19⟩ : TrackUpdateMessage)).drop 32).take 8) = f7 := by
    rw [D6, List.take_left' (length_toLE 8 f7)]
    exact fromLE_toLE 8 f7 (by norm_num; omega)
  have F8 : MessageSerializer.fromLE (((MessageSerializer.serialize (⟨f1, f2, f3, f4, f5, f6, f7, f8, f9, f10, f11, f12, f13, f14, f15, f16, f17, f18, f19⟩ : TrackUpdateMessage)).drop 40).take 8) = f8 := by
    rw [D7, List.take_left' (length_toLE 8 f8)]
    exact fromLE_toLE 8 f8 (by norm_num; omega)
  have F9 : MessageSerializer.fromLE (((MessageSerializer.serialize (⟨f1, f2, f3, f4, f5, f6, f7, f8, f9, f10, f11, f12, f13, f14, f15, f16, f17, f18, f19⟩ : TrackUpdateMessage)).drop 48).take 8) = f9 := by
    rw [D8, List.take_left' (length_toLE 8 f9)]
    exact fromLE_toLE 8 f9 (by norm_num; omega)
  have F10 : MessageSerializer.fromLE (((MessageSerializer.serialize (⟨f1, f2, f3, f4, f5, f6, f7, f8, f9, f10, f11, f12, f13, f14, f15, f16, f17, f18, f19⟩ : TrackUpdateMessage)).drop 56).take 8) = f10 := by
    rw [D9, List.take_left' (length_toLE 8 f10)]
    exact fromLE_toLE 8 f10 (by norm_num; omega)
  have F11 : MessageSerializer.fromLE (((MessageSerializer.serialize (⟨f1, f2, f3, f4, f5, f6, f7, f8, f9, f10, f11, f12, f13, f14, f15, f16, f17, f18, f19⟩ : TrackUpdateMessage)).drop 64).take 8) = f11 := by
    rw [D10, List.take_left' (length_toLE 8 f11)]
    exact fromLE_toLE 8 f11 (by norm_num; omega)
  have F12 : MessageSerializer.fromLE (((MessageSerializer.serialize (⟨f1, f2, f3, f4, f5, f6, f7, f8, f9, f10, f11, f12, f13, f14, f15, f16, f17, f18, f19⟩ : TrackUpdateMessage)).drop 72).take 8) = f12 := by
    rw [D11, List.take_left' (length_toLE 8 f12)]
    exact fromLE_toLE 8 f12 (by norm_num; omega)
  have F13 : MessageSerializer.fromLE (((MessageSerializer.serialize (⟨f1, f2, f3, f4, f5, f6, f7, f8, f9, f10, f11, f12, f13, f14, f15, f16, f17, f18, f19⟩ : TrackUpdateMessage)).drop 80).take 8) = f13 := by
    rw [D12, List.take_left' (length_toLE 8 f13)]
    exact fromLE_toLE 8 f13 (by norm_num; omega)
  have F14 : MessageSerializer.fromLE (((MessageSerializer.serialize (⟨f1, f2, f3, f4, f5, f6, f7, f8, f9, f10, f11, f12, f13, f14, f15, f16, f17, f18, f19⟩ : TrackUpdateMessage)).drop 88).take 8) = f14 := by
    rw [D13, List.take_left' (length_toLE 8 f14)]
    exact fromLE_toLE 8 f14 (by norm_num; omega)
  have F15 : MessageSerializer.fromLE (((MessageSerializer.serialize (⟨f1, f2, f3, f4, f5, f6, f7, f8, f9, f10, f11, f12, f13, f14, f15, f16, f17, f18, f19⟩ : TrackUpdateMessage)).drop 96).take 8) = f15 := by
    rw [D14, List.take_left' (length_toLE 8 f15)]
    exact fromLE_toLE 8 f15 (by norm_num; omega)
  have F16 : MessageSerializer.fromLE (((MessageSerializer.serialize (⟨f1, f2, f3, f4, f5, f6, f7, f8, f9, f10, f11, f12, f13, f14, f15, f16, f17, f18, f19⟩ : TrackUpdateMessage)).drop 104).take 8) = f16 := by
    rw [D15, List.take_left' (length_toLE 8 f16)]
    exact fromLE_toLE 8 f16 (by norm_num; omega)
  have F17 : MessageSerializer.fromLE (((MessageSerializer.serialize (⟨f1, f2, f3, f4, f5, f6, f7, f8, f9, f10, f11, f12, f13, f14, f15, f16, f17, f18, f19⟩ : TrackUpdateMessage)).drop 112).take 4) = f17 := by
    rw [D16, List.take_left' (length_toLE 4 f17)]
    exact fromLE_toLE 4 f17 (by norm_num; omega)
  have F18 : MessageSerializer.fromLE (((MessageSerializer.serialize (⟨f1, f2, f3, f4, f5, f6, f7, f8, f9, f10, f11, f12, f13, f14, f15, f16, f17, f18, f19⟩ : TrackUpdateMessage)).drop 116).take 4) = f18 := by
    rw [D17, List.take_left' (length_toLE 4 f18)]
    exact fromLE_toLE 4 f18 (by norm_num; omega)
  have F19 : MessageSerializer.fromLE (((MessageSerializer.serialize (⟨f1, f2, f3, f4, f5, f6, f7, f8, f9, f10, f11, f12, f13, f14, f15, f16, f17, f18, f19⟩ : TrackUpdateMessage)).drop 120).take 4) = f19 := by
    rw [D18, List.take_left' (length_toLE 4 f19)]
    exact fromLE_toLE 4 f19 (by norm_num; omega)
  have hlen : (MessageSerializer.serialize (⟨f1, f2, f3, f4, f5, f6, f7, f8, f9, f10, f11, f12, f13, f14, f15, f16, f17, f18, f19⟩ : TrackUpdateMessage)).length = 128 := by
    simp [MessageSerializer.serialize, length_toLE]
  unfold MessageSerializer.deserialize
  rw [if_neg (by omega)]
  rw [F1, F2, F3, F4, F5, F6, F7, F8, F9, F10, F11, F12, F13, F14, F15, F16, F17, F18, F19]

/-- Closed witness for the C9 round-trip at a concrete message. -/
theorem trackUpdateMessage_roundtrip_witness :
    (⟨2, 7, 123456789, 1, 3, 10, 11, 12, 13, 14, 15, 16, 17, 18, 19, 20, 5, 6, 9⟩ :
      TrackUpdateMessage).WF
    ∧ MessageSerializer.deserialize (MessageSerializer.serialize
        (⟨2, 7, 123456789, 1, 3, 10, 11, 12, 13, 14, 15, 16, 17, 18, 19, 20, 5, 6, 9⟩ :
          TrackUpdateMessage))
      = some ⟨2, 7, 123456789, 1, 3, 10, 11, 12, 13, 14, 15, 16, 17, 18, 19, 20, 5, 6, 9⟩ :=
  ⟨by decide, trackUpdateMessage_roundtrip _ (by decide)⟩

theorem likelihood_nonneg (rexp rlog : ℚ → ℚ) (hexp : ∀ x, 0 ≤ rexp x)
    (m : Fin 5) (st : IMMState) (z : Vec3) (R : Mat3) :
    0 ≤ IMMFilter.modelLikelihood rexp rlog m st z R := by
  unfold IMMFilter.modelLikelihood
  dsimp only
  split
  · norm_num
  · split
    · norm_num
    · exact hexp _

theorem update_probs_eq (rexp rlog : ℚ → ℚ) (T : TransMatrix) (s : IMMState)
    (z : Vec3) (R : Mat3) :
    (IMMFilter.update rexp rlog T s z R).modeProbabilities
      = if IMMFilter.totalMass rexp rlog T (IMMFilter.kalmanStep z R s) z R
           > 1/10^30
        then fun j =>
          (IMMFilter.modelLikelihood rexp rlog j (IMMFilter.kalmanStep z R s) z R
            * IMMFilter.cBar T s.modeProbabilities j)
          / IMMFilter.totalMass rexp rlog T (IMMFilter.kalmanStep z R s) z R
        else fun _ => 1/5 := rfl

theorem update_reset_uniform (rexp rlog : ℚ → ℚ) (T : TransMatrix)
    (s : IMMState) (z : Vec3) (R : Mat3) :
    IMMFilter.totalMass rexp rlog T (IMMFilter.kalmanStep z R s) z R < 1/10^30 →
    (IMMFilter.update rexp rlog T s z R).modeProbabilities = fun _ => 1/5 := by
  intro hlt
  rw [update_probs_eq, if_neg (not_lt.mpr (le_of_lt hlt))]

/-- C2: for every IMM state whose mode probabilities are nonnegative and
sum to 1 (and a nonnegative configured transition matrix, `std::exp`
being nonnegative), predict leaves the mode probabilities unchanged — so
they remain a probability vector — and after update they are again
nonnegative and sum to 1 exactly: update renormalizes the products
likelihood × c̄, or resets every probability to 1/5 when the normalizing
mass is below 1e-30. -/
theorem imm_mode_probabilities_invariant
    (models : Fin 5 → ℚ → Vec9 → Mat9 → Vec9 × Mat9) (rexp rlog : ℚ → ℚ)
    (T : TransMatrix) (dt : ℚ) (z : Vec3) (R : Mat3) (s : IMMState)
    (hexp : ∀ x, 0 ≤ rexp x) (hT : ∀ i j, 0 ≤ T i j)
    (hnn : ∀ i, 0 ≤ s.modeProbabilities i)
    (hsum : Finset.univ.sum s.modeProbabilities = 1) :
    (IMMFilter.predict models T dt s).modeProbabilities = s.modeProbabilities
    ∧ (∀ i, 0 ≤ (IMMFilter.predict models T dt s).modeProbabilities i)
    ∧ Finset.univ.sum (IMMFilter.predict models T dt s).modeProbabilities = 1
    ∧ (∀ i, 0 ≤ (IMMFilter.update rexp rlog T s z R).modeProbabilities i)
    ∧ Finset.univ.sum (IMMFilter.update rexp rlog T s z R).modeProbabilities = 1
    ∧ (IMMFilter.totalMass rexp rlog T (IMMFilter.kalmanStep z R s) z R < 1/10^30 →
        (IMMFilter.update rexp rlog T s z R).modeProbabilities = fun _ => 1/5) := by
  have hpred : (IMMFilter.predict models T dt s).modeProbabilities
      = s.modeProbabilities := rfl
  refine ⟨hpred, ?_, ?_, ?_, ?_, update_reset_uniform rexp rlog T s z R⟩
  · intro i
    rw [hpred]
    exact hnn i
  · rw [hpred]
    exact hsum
  · intro i
    rw [update_probs_eq]
    split_ifs with htot
    · exact div_nonneg
        (mul_nonneg (likelihood_nonneg rexp rlog hexp _ _ z R)
          (Finset.sum_nonneg fun j _ => mul_nonneg (hT j i) (hnn j)))
        (le_of_lt (lt_trans (by norm_num) htot))
    · norm_num
  · rw [update_probs_eq]
    split_ifs with htot
    · rw [← Finset.sum_div]
      exact div_self (ne_of_gt (lt_trans (by norm_num) htot))
    · rw [Finset.sum_const, Finset.card_univ]
      simp only [Fintype.card_fin]
      norm_num

/-- Closed witness for C2: at the uniform transition matrix, identity
noise and the origin state, the updated mode probabilities sum to 1. -/
theorem imm_mode_probabilities_invariant_witness :
    Finset.univ.sum
      (IMMFilter.update ceExp ceLog ceT ceStateZero ceZ ceId3).modeProbabilities
      = 1 :=
  (imm_mode_probabilities_invariant ceModels ceExp ceLog ceT 1 ceZ ceId3
    ceStateZero (fun _ => by norm_num [ceExp]) (fun _ _ => by norm_num [ceT])
    (fun _ => by norm_num [ceStateZero]) (by decide)).2.2.2.2.1

/-- C3 (amended): in IMMFilter::update the per-model Kalman correction
(x += K·ν, P ← (I − K·H)·P) is applied iff the Gauss–Jordan inversion of
S_j = H·P_j·Hᵀ + R succeeds (every pivot magnitude ≥ 1e-14); when the
inversion fails that model's state and covariance are left unchanged by
the update; the det(S_j) ≥ 1e-30 floor of the source guards only the
likelihood computation, not the correction; and if the total normalizing
mass of likelihood×c̄ over the five models is < 1e-30, the mode
probabilities are reset to the uniform 1/5. -/
theorem imm_update_kalman_gate (rexp rlog : ℚ → ℚ) (T : TransMatrix)
    (s : IMMState) (z : Vec3) (R : Mat3) (m : Fin 5) :
    (mat.invertMeas (mat.measAddMat
        (mat.hpht IMMFilter.measurementMatrix (s.modelCovariances m)) R) = none →
      (IMMFilter.update rexp rlog T s z R).modelStates m = s.modelStates m
      ∧ (IMMFilter.update rexp rlog T s z R).modelCovariances m
          = s.modelCovariances m)
    ∧ (∀ Sinv, mat.invertMeas (mat.measAddMat
        (mat.hpht IMMFilter.measurementMatrix (s.modelCovariances m)) R)
          = some Sinv →
      (IMMFilter.update rexp rlog T s z R).modelStates m
        = mat.add (s.modelStates m)
            (mat.kalmanCorrection
              (mat.kalmanGain
                (mat.pht (s.modelCovariances m) IMMFilter.measurementMatrix) Sinv)
              (mat.measSub z
                (mat.measFromState IMMFilter.measurementMatrix (s.modelStates m))))
      ∧ (IMMFilter.update rexp rlog T s z R).modelCovariances m
        = mat.multiply
            (mat.subMat matIdentity
              (mat.kh
                (mat.kalmanGain
                  (mat.pht (s.modelCovariances m) IMMFilter.measurementMatrix) Sinv)
                IMMFilter.measurementMatrix))
            (s.modelCovariances m))
    ∧ (IMMFilter.totalMass rexp rlog T (IMMFilter.kalmanStep z R s) z R < 1/10^30 →
        (IMMFilter.update rexp rlog T s z R).modeProbabilities = fun _ => 1/5) := by
  have hst : (IMMFilter.update rexp rlog T s z R).modelStates m
      = (IMMFilter.kalmanModelUpdate z R (s.modelStates m) (s.modelCovariances m)).1 :=
    rfl
  have hcv : (IMMFilter.update rexp rlog T s z R).modelCovariances m
      = (IMMFilter.kalmanModelUpdate z R (s.modelStates m) (s.modelCovariances m)).2 :=
    rfl
  refine ⟨?_, ?_, update_reset_uniform rexp rlog T s z R⟩
  · intro hnone
    rw [hst, hcv]
    unfold IMMFilter.kalmanModelUpdate
    dsimp only
    rw [hnone]
    exact ⟨rfl, rfl⟩
  · intro Sinv hsome
    rw [hst, hcv]
    unfold IMMFilter.kalmanModelUpdate
    dsimp only
    rw [hsome]
    exact ⟨rfl, rfl⟩

set_option maxRecDepth 8000 in
/-- C3 counterexample to the claim as stated: with position variances
1e-11 and zero measurement noise, det S = 1e-33 < 1e-30, yet the
Gauss–Jordan inversion succeeds (pivots 1e-11 ≥ 1e-14) and the Kalman
correction IS applied — model 0's x-position moves from 0 to 1, where the
claim says the model is skipped (state unchanged). -/
theorem imm_update_small_det_counterexample :
    mat.det3x3 (mat.measAddMat (mat.hpht IMMFilter.measurementMatrix
        (ceStateSmall.modelCovariances 0)) ceR0) < 1/10^30
    ∧ (mat.invertMeas (mat.measAddMat (mat.hpht IMMFilter.measurementMatrix
        (ceStateSmall.modelCovariances 0)) ceR0)).isSome = true
    ∧ (IMMFilter.update ceExp ceLog ceT ceStateSmall ceZ ceR0).modelStates 0 0 = 1
    ∧ ceStateSmall.modelStates 0 0 = 0 := by
  refine ⟨by decide, by decide, by decide, by decide⟩


/-- C6: for a track whose innovation covariance S = H·P·Hᵀ + R inverts
(GAuss–Jordan), a (track, cluster) pair is gated — it yields an
association candidate — iff the Mahalanobis squared distance
(z − H·x)ᵀ·S⁻¹·(z − H·x) is ≤ the configured gating threshold; the
comparison is inclusive, so a measurement exactly on the gate boundary is
accepted. -/
theorem mahalanobis_gating_iff (gth : ℚ) (R : Mat3) (t : ℕ) (st : IMMState)
    (clusters : List Cluster) (Sinv : Mat3)
    (hinv : mat.invertMeas (mat.measAddMat
        (mat.hpht IMMFilter.measurementMatrix st.mergedCovariance) R)
      = some Sinv) :
    ∀ c cl, clusters[c]? = some cl →
      ((⟨t, c, mat.mahalanobisDistance
          (mat.measSub (clusterMeas cl)
            (mat.measFromState IMMFilter.measurementMatrix st.mergedState))
          Sinv⟩ : AssociationResult)
          ∈ MahalanobisAssociator.candidatesForTrack gth R t st clusters
        ↔ mat.mahalanobisDistance
            (mat.measSub (clusterMeas cl)
              (mat.measFromState IMMFilter.measurementMatrix st.mergedState))
            Sinv ≤ gth) := by
  intro c cl hc
  unfold MahalanobisAssociator.candidatesForTrack
  dsimp only
  rw [hinv]
  dsimp only
  constructor
  · intro hmem
    rcases List.mem_filterMap.mp hmem with ⟨p, hp, hfp⟩
    obtain ⟨i, a⟩ := p
    dsimp only at hfp
    split at hfp
    next hle =>
      injection hfp with hfp1
      injection hfp1 with h1 h2 h3
      subst h2
      have hgot := List.mk_mem_enum_iff_getElem?.mp hp
      rw [hc] at hgot
      injection hgot with ha
      subst ha
      exact hle
    next => exact absurd hfp (by simp)
  · intro hle
    apply List.mem_filterMap.mpr
    refine ⟨(c, cl), List.mk_mem_enum_iff_getElem?.mpr hc, ?_⟩
    dsimp only
    rw [if_pos hle]

set_option maxRecDepth 8000 in
theorem ceId3_invertMeas :
    mat.invertMeas (mat.measAddMat
      (mat.hpht IMMFilter.measurementMatrix ceStateZero.mergedCovariance) ceId3)
    = some ceId3 := by
  have hb : ((mat.invertMeas (mat.measAddMat
      (mat.hpht IMMFilter.measurementMatrix ceStateZero.mergedCovariance)
      ceId3)).elim false
      (fun A => (List.finRange 3).all fun i =>
        (List.finRange 3).all fun j => A i j == ceId3 i j)) = true := by decide
  rcases hx : mat.invertMeas (mat.measAddMat
      (mat.hpht IMMFilter.measurementMatrix ceStateZero.mergedCovariance) ceId3)
    with _ | A
  · rw [hx] at hb
    simp at hb
  · rw [hx] at hb
    simp only [Option.elim_some, List.all_eq_true, beq_iff_eq] at hb
    congr 1
    funext i j
    exact hb i (List.mem_finRange i) j (List.mem_finRange j)

set_option maxRecDepth 8000 in
/-- Closed witness for C6: a measurement exactly on the gate boundary
(d² = gatingThreshold = 3) is accepted as gated. -/
theorem mahalanobis_gating_iff_witness :
    (⟨0, 0, mat.mahalanobisDistance (mat.measSub (clusterMeas ceCluster111)
        (mat.measFromState IMMFilter.measurementMatrix ceStateZero.mergedState))
        ceId3⟩ : AssociationResult)
      ∈ MahalanobisAssociator.candidatesForTrack 3 ceId3 0 ceStateZero
          [ceCluster111]
    ∧ mat.mahalanobisDistance (mat.measSub (clusterMeas ceCluster111)
        (mat.measFromState IMMFilter.measurementMatrix ceStateZero.mergedState))
        ceId3 = 3 :=
  ⟨(mahalanobis_gating_iff 3 ceId3 0 ceStateZero [ceCluster111] ceId3
      ceId3_invertMeas 0 ceCluster111 (by decide)).mpr (by decide), by decide⟩


/-- C5 (amended): when a cluster gates onto a candidate, the candidate is
promoted to a new track exactly when, after the append, hits ≥ m and
total ≤ n.  The returned track starts Tentative with hitCount 1, quality
0.5 and classification Unknown; its position is the latest cluster's
Cartesian centroid, its acceleration is zero, and its velocity is the
finite difference (latest − prior)/Δt of the last two detections when the
inter-detection gap Δt exceeds 1e-6 s, and zero otherwise (the source
guards the division by `dt > 1e-6`); the initial covariance is diagonal
with per-axis entries positionStd², velocityStd², accelerationStd². -/
theorem initiator_promotion_spec (icfg : InitiationConfig)
    (ccfg : InitialCovarianceConfig) (probs : Fin 5 → ℚ) (cluster : Cluster)
    (ts dwell tid : ℕ) (cand : InitiationCandidate)
    (rest : List InitiationCandidate)
    (hgate : TrackInitiator.gateMatch icfg cand cluster ts = true) :
    (¬ (icfg.m ≤ cand.hits + 1 ∧ cand.total + 1 ≤ icfg.n) →
      TrackInitiator.tryCandidates icfg ccfg probs cluster ts dwell tid
          (cand :: rest)
        = some (⟨cand.history ++ [⟨cluster, ts, dwell⟩],
                 cand.hits + 1, cand.total + 1, false⟩ :: rest, none))
    ∧ ((icfg.m ≤ cand.hits + 1 ∧ cand.total + 1 ≤ icfg.n) →
      ∃ tr, TrackInitiator.tryCandidates icfg ccfg probs cluster ts dwell tid
          (cand :: rest)
        = some (⟨cand.history ++ [⟨cluster, ts, dwell⟩],
                 cand.hits + 1, cand.total + 1, true⟩ :: rest, some tr)
      ∧ tr.status = TrackStatus.Tentative
      ∧ tr.hitCount = 1
      ∧ tr.quality = 1/2
      ∧ tr.classification = TrackClassification.Unknown
      ∧ tr.imm.mergedState 0 = cluster.x
      ∧ tr.imm.mergedState 3 = cluster.y
      ∧ tr.imm.mergedState 6 = cluster.z
      ∧ tr.imm.mergedState 2 = 0 ∧ tr.imm.mergedState 5 = 0
      ∧ tr.imm.mergedState 8 = 0
      ∧ (∀ h0, cand.history.getLast? = some h0 →
          (((ts - h0.timestamp : ℕ) : ℚ) / 10^6 > 1/10^6 →
            tr.imm.mergedState 1
              = (cluster.x - h0.cluster.x) / (((ts - h0.timestamp : ℕ) : ℚ) / 10^6)
            ∧ tr.imm.mergedState 4
              = (cluster.y - h0.cluster.y) / (((ts - h0.timestamp : ℕ) : ℚ) / 10^6)
            ∧ tr.imm.mergedState 7
              = (cluster.z - h0.cluster.z) / (((ts - h0.timestamp : ℕ) : ℚ) / 10^6))
          ∧ (¬ (((ts - h0.timestamp : ℕ) : ℚ) / 10^6 > 1/10^6) →
            tr.imm.mergedState 1 = 0 ∧ tr.imm.mergedState 4 = 0
            ∧ tr.imm.mergedState 7 = 0))
      ∧ (∀ i j : Fin 9, tr.imm.mergedCovariance i j =
          if i = j then
            (if i.val % 3 = 0 then ccfg.positionStd * ccfg.positionStd
             else if i.val % 3 = 1 then ccfg.velocityStd * ccfg.velocityStd
             else ccfg.accelerationStd * ccfg.accelerationStd)
          else 0)) := by
  have hp : cand.promoted = false := by
    by_contra hc
    rw [Bool.not_eq_false] at hc
    unfold TrackInitiator.gateMatch at hgate
    rw [if_pos hc] at hgate
    cases hgate
  constructor
  · intro hno
    unfold TrackInitiator.tryCandidates
    rw [if_pos hgate]
    dsimp only
    rw [if_neg hno, hp]
  · intro hok
    unfold TrackInitiator.tryCandidates
    rw [if_pos hgate]
    dsimp only
    rw [if_pos hok]
    rcases hl : cand.history.getLast? with _ | h0 <;> simp only [hl]
    · refine ⟨_, rfl, rfl, rfl, rfl, rfl, rfl, rfl, rfl, rfl, rfl, rfl,
        ?_, fun i j => rfl⟩
      intro h0' hh
      cases hh
    · refine ⟨_, rfl, rfl, rfl, rfl, rfl, rfl, rfl, rfl, ?_, ?_, ?_, ?_,
        fun i j => rfl⟩
      · show (if (((ts - h0.timestamp : ℕ) : ℚ) / 10^6) > 1/10^6
              then (0:ℚ) else 0) = 0
        exact ite_self 0
      · show (if (((ts - h0.timestamp : ℕ) : ℚ) / 10^6) > 1/10^6
              then (0:ℚ) else 0) = 0
        exact ite_self 0
      · show (if (((ts - h0.timestamp : ℕ) : ℚ) / 10^6) > 1/10^6
              then (0:ℚ) else 0) = 0
        exact ite_self 0
      · intro h0' hh
        injection hh with he
        subst he
        constructor
        · intro hdt
          refine ⟨?_, ?_, ?_⟩
          · show (if (((ts - h0.timestamp : ℕ) : ℚ) / 10^6) > 1/10^6
                  then (cluster.x - h0.cluster.x)
                        / (((ts - h0.timestamp : ℕ) : ℚ) / 10^6)
                  else 0) = _
            rw [if_pos hdt]
          · show (if (((ts - h0.timestamp : ℕ) : ℚ) / 10^6) > 1/10^6
                  then (cluster.y - h0.cluster.y)
                        / (((ts - h0.timestamp : ℕ) : ℚ) / 10^6)
                  else 0) = _
            rw [if_pos hdt]
          · show (if (((ts - h0.timestamp : ℕ) : ℚ) / 10^6) > 1/10^6
                  then (cluster.z - h0.cluster.z)
                        / (((ts - h0.timestamp : ℕ) : ℚ) / 10^6)
                  else 0) = _
            rw [if_pos hdt]
        · intro hdt
          refine ⟨?_, ?_, ?_⟩
          · show (if (((ts - h0.timestamp : ℕ) : ℚ) / 10^6) > 1/10^6
                  then (cluster.x - h0.cluster.x)
                        / (((ts - h0.timestamp : ℕ) : ℚ) / 10^6)
                  else 0) = 0
            rw [if_neg hdt]
          · show (if (((ts - h0.timestamp : ℕ) : ℚ) / 10^6) > 1/10^6
                  then (cluster.y - h0.cluster.y)
                        / (((ts - h0.timestamp : ℕ) : ℚ) / 10^6)
                  else 0) = 0
            rw [if_neg hdt]
          · show (if (((ts - h0.timestamp : ℕ) : ℚ) / 10^6) > 1/10^6
                  then (cluster.z - h0.cluster.z)
                        / (((ts - h0.timestamp : ℕ) : ℚ) / 10^6)
                  else 0) = 0
            rw [if_neg hdt]

/-- Closed witness for C5: the concrete two-detection candidate promotes
and the track starts Tentative with hitCount 1 and quality 0.5. -/
theorem initiator_promotion_spec_witness :
    ∃ tr : Track,
      TrackInitiator.tryCandidates ceInitCfg ceCovCfg ceUniformProbs
          ceClusterB 1 1 0 [⟨[⟨ceClusterA, 0, 0⟩], 1, 1, false⟩]
        = some ([⟨[⟨ceClusterA, 0, 0⟩, ⟨ceClusterB, 1, 1⟩], 2, 2, true⟩],
                some tr)
      ∧ tr.status = TrackStatus.Tentative ∧ tr.hitCount = 1
      ∧ tr.quality = 1/2 := by
  obtain ⟨tr, heq, h1, h2, h3, -⟩ :=
    (initiator_promotion_spec ceInitCfg ceCovCfg ceUniformProbs ceClusterB
      1 1 0 ⟨[⟨ceClusterA, 0, 0⟩], 1, 1, false⟩ [] (by decide)).2 (by decide)
  exact ⟨tr, heq, h1, h2, h3⟩

/-- C5 counterexample to the claim as stated: two detections 1 µs apart
(Δt = 1e-6, not > 1e-6) promote a track whose velocity is 0, while the
claim's formula (latest − prior)/Δt gives 1e8 m/s ≠ 0: the code zeroes
the velocity whenever Δt ≤ 1e-6 even with two detections. -/
theorem initiator_velocity_counterexample :
    (ceInitStep2.newTracks.map fun tr => tr.imm.mergedState 1) = [0]
    ∧ (ceInitStep2.candidates.map fun c => c.history.length) = [2]
    ∧ (ceClusterB.x - ceClusterA.x) / (((1 - 0 : ℕ) : ℚ) / 10^6) = 10^8
    ∧ (10^8 : ℚ) ≠ 0 := by
  refine ⟨by decide, by decide, by decide, by decide⟩


theorem length_eq_sum_countP {α : Type} (l : List α) (f : α → ℕ) (n : ℕ)
    (hf : ∀ x ∈ l, f x < n) :
    (Finset.range n).sum (fun t => l.countP (fun x => f x == t)) = l.length := by
  induction l with
  | nil => simp
  | cons a l ih =>
    simp only [List.countP_cons]
    rw [Finset.sum_add_distrib, ih (fun x hx => hf x (List.mem_cons_of_mem a hx))]
    have ha : f a ∈ Finset.range n :=
      Finset.mem_range.mpr (hf a (List.mem_cons_self a l))
    have h1 : ((Finset.range n).sum fun t => if f a == t then 1 else 0) = 1 := by
      rw [Finset.sum_eq_single (f a)]
      · simp
      · intro b _ hb
        simp only [beq_iff_eq, ite_eq_right_iff]
        intro he
        exact absurd he.symm hb
      · intro h
        exact absurd ha h
    rw [h1]
    simp [Nat.add_comm]

theorem countP_le_one_of_pairwise {α : Type} (l : List α) (f : α → ℕ)
    (h : l.Pairwise (fun a b => f a ≠ f b)) (t : ℕ) :
    l.countP (fun x => f x == t) ≤ 1 := by
  induction l with
  | nil => simp
  | cons a l ih =>
    rw [List.pairwise_cons] at h
    rw [List.countP_cons]
    by_cases ha : f a = t
    · have hz : l.countP (fun x => f x == t) = 0 := by
        rw [List.countP_eq_zero]
        intro b hb
        simp only [beq_iff_eq]
        rw [← ha]
        exact (h.1 b hb).symm
      simp [hz, ha]
    · simp only [beq_iff_eq, ha, if_false]
      simpa using ih h.2

theorem filter_complement {α : Type} (n : ℕ) (f : α → ℕ)
    (matched : List α)
    (hpw : matched.Pairwise (fun a b => f a ≠ f b))
    (hlt : ∀ m ∈ matched, f m < n) :
    (∀ t, t < n →
      matched.countP (fun m => f m == t)
        + ((List.range n).filter
            (fun t => !(matched.any (fun m => f m == t)))).count t = 1)
    ∧ (∀ t ∈ (List.range n).filter
          (fun t => !(matched.any (fun m => f m == t))), t < n)
    ∧ matched.length
        + ((List.range n).filter
            (fun t => !(matched.any (fun m => f m == t)))).length = n := by
  set unm := (List.range n).filter
    (fun t => !(matched.any (fun m => f m == t))) with hunm
  have hmem : ∀ t, t ∈ unm ↔ t < n ∧ matched.any (fun m => f m == t) = false := by
    intro t
    rw [hunm, List.mem_filter, List.mem_range]
    simp
  have hone : ∀ t, t < n →
      matched.countP (fun m => f m == t) + unm.count t = 1 := by
    intro t ht
    by_cases h : matched.any (fun m => f m == t) = true
    · have h1 : 1 ≤ matched.countP (fun m => f m == t) := by
        rw [List.any_eq_true] at h
        rcases h with ⟨m, hm, hmt⟩
        exact Nat.succ_le_of_lt (List.countP_pos_iff.mpr ⟨m, hm, hmt⟩)
      have h2 := countP_le_one_of_pairwise matched f hpw t
      have h3 : unm.count t = 0 := by
        rw [List.count_eq_zero]
        intro hcon
        rw [hmem t] at hcon
        rw [h] at hcon
        cases hcon.2
      omega
    · rw [Bool.not_eq_true] at h
      have h1 : matched.countP (fun m => f m == t) = 0 := by
        rw [List.countP_eq_zero]
        intro m hm
        intro hc
        have hany : (matched.any fun m => f m == t) = true :=
          List.any_eq_true.mpr ⟨m, hm, hc⟩
        rw [h] at hany
        cases hany
      have h2 : unm.count t = 1 := by
        have hnd : unm.Nodup := List.Nodup.filter _ (List.nodup_range n)
        have hin : t ∈ unm := (hmem t).mpr ⟨ht, h⟩
        exact List.count_eq_one_of_mem hnd hin
      omega
  refine ⟨hone, fun t ht => ((hmem t).mp ht).1, ?_⟩
  have hm : (Finset.range n).sum
      (fun t => matched.countP (fun m => f m == t)) = matched.length :=
    length_eq_sum_countP matched f n hlt
  have hu : (Finset.range n).sum (fun t => unm.countP (fun x => x == t))
      = unm.length :=
    length_eq_sum_countP unm id n (fun t ht => ((hmem t).mp ht).1)
  have hcount : ∀ t, unm.count t = unm.countP (fun x => x == t) := by
    intro t
    rfl
  calc matched.length + unm.length
      = (Finset.range n).sum (fun t => matched.countP (fun m => f m == t))
        + (Finset.range n).sum (fun t => unm.countP (fun x => x == t)) := by
        rw [hm, hu]
    _ = (Finset.range n).sum (fun t =>
          matched.countP (fun m => f m == t) + unm.countP (fun x => x == t)) := by
        rw [Finset.sum_add_distrib]
    _ = (Finset.range n).sum (fun _ => 1) := by
        apply Finset.sum_congr rfl
        intro t ht
        rw [← hcount t]
        exact hone t (Finset.mem_range.mp ht)
    _ = n := by simp

theorem insertByDistance_mem (a m : AssociationResult)
    (l : List AssociationResult) :
    m ∈ MahalanobisAssociator.insertByDistance a l ↔ m = a ∨ m ∈ l := by
  induction l with
  | nil => simp [MahalanobisAssociator.insertByDistance]
  | cons b l ih =>
    unfold MahalanobisAssociator.insertByDistance
    split_ifs with h
    · simp [List.mem_cons]
    · simp only [List.mem_cons, ih]
      tauto

theorem sortByDistance_mem (m : AssociationResult)
    (l : List AssociationResult) :
    m ∈ MahalanobisAssociator.sortByDistance l ↔ m ∈ l := by
  induction l with
  | nil => simp [MahalanobisAssociator.sortByDistance]
  | cons a l ih =>
    unfold MahalanobisAssociator.sortByDistance
    rw [insertByDistance_mem]
    simp [List.mem_cons, ih]

theorem greedy_fold_inv (thr : ℚ) (cands : List AssociationResult) :
    ∀ acc : List AssociationResult, acc.Pairwise DistinctPair →
    (cands.foldl
      (fun matched cand =>
        if matched.any (fun m => m.trackIndex == cand.trackIndex ||
                                 m.clusterIndex == cand.clusterIndex) then matched
        else if cand.distance ≤ thr then matched ++ [cand]
        else matched)
      acc).Pairwise DistinctPair ∧
    ∀ m ∈ cands.foldl
      (fun matched cand =>
        if matched.any (fun m => m.trackIndex == cand.trackIndex ||
                                 m.clusterIndex == cand.clusterIndex) then matched
        else if cand.distance ≤ thr then matched ++ [cand]
        else matched)
      acc, m ∈ acc ∨ m ∈ cands := by
  induction cands with
  | nil => exact fun acc hacc => ⟨hacc, fun m hm => Or.inl hm⟩
  | cons c l ih =>
    intro acc hacc
    simp only [List.foldl_cons]
    by_cases hany : acc.any (fun m => m.trackIndex == c.trackIndex ||
        m.clusterIndex == c.clusterIndex) = true
    · rw [if_pos hany]
      refine ⟨(ih acc hacc).1, fun m hm => ?_⟩
      rcases (ih acc hacc).2 m hm with h | h
      · exact Or.inl h
      · exact Or.inr (List.mem_cons_of_mem c h)
    · rw [Bool.not_eq_true] at hany
      rw [if_neg (by rw [hany]; exact Bool.false_ne_true)]
      by_cases hd : c.distance ≤ thr
      · rw [if_pos hd]
        have hacc' : (acc ++ [c]).Pairwise DistinctPair := by
          rw [List.pairwise_append]
          refine ⟨hacc, List.pairwise_singleton _ _, ?_⟩
          intro a ha b hb
          rw [List.mem_singleton] at hb
          subst hb
          have := List.any_eq_false.mp hany a ha
          simp only [Bool.or_eq_true, beq_iff_eq, not_or] at this
          exact ⟨this.1, this.2⟩
        refine ⟨(ih _ hacc').1, fun m hm => ?_⟩
        rcases (ih _ hacc').2 m hm with h | h
        · rw [List.mem_append, List.mem_singleton] at h
          rcases h with h | h
          · exact Or.inl h
          · exact Or.inr (h ▸ List.mem_cons_self c l)
        · exact Or.inr (List.mem_cons_of_mem c h)
      · rw [if_neg hd]
        refine ⟨(ih acc hacc).1, fun m hm => ?_⟩
        rcases (ih acc hacc).2 m hm with h | h
        · exact Or.inl h
        · exact Or.inr (List.mem_cons_of_mem c h)

theorem greedy_pairwise (thr : ℚ) (cands : List AssociationResult) :
    (MahalanobisAssociator.greedy thr cands).Pairwise DistinctPair :=
  (greedy_fold_inv thr cands [] (List.Pairwise.nil)).1

theorem greedy_subset (thr : ℚ) (cands : List AssociationResult)
    (m : AssociationResult) (hm : m ∈ MahalanobisAssociator.greedy thr cands) :
    m ∈ cands := by
  rcases (greedy_fold_inv thr cands [] (List.Pairwise.nil)).2 m hm with h | h
  · cases h
  · exact h

theorem allCandidates_bounds (gth : ℚ) (R : Mat3) (tracks : List IMMState)
    (clusters : List Cluster) (m : AssociationResult)
    (hm : m ∈ MahalanobisAssociator.allCandidates gth R tracks clusters) :
    m.trackIndex < tracks.length ∧ m.clusterIndex < clusters.length := by
  unfold MahalanobisAssociator.allCandidates at hm
  rw [List.mem_flatMap] at hm
  obtain ⟨p, hp, hm⟩ := hm
  have hp1 := List.mem_enumFrom hp
  unfold MahalanobisAssociator.candidatesForTrack at hm
  dsimp only at hm
  split at hm
  · cases hm
  · simp only [List.mem_filterMap] at hm
    obtain ⟨q, hq, heq⟩ := hm
    have hq1 := List.mem_enumFrom hq
    split_ifs at heq with hdist
    · injection heq with heq
      subst heq
      exact ⟨show p.1 < tracks.length by omega,
             show q.1 < clusters.length by omega⟩

theorem nn_association_partition (cfg : MahalanobisConfig) (gth : ℚ)
    (tracks : List IMMState) (clusters : List Cluster) (R : Mat3) :
    TrackPartition tracks.length
      (MahalanobisAssociator.associate cfg gth tracks clusters R)
    ∧ ClusterPartition clusters.length
      (MahalanobisAssociator.associate cfg gth tracks clusters R) := by
  set matched := MahalanobisAssociator.greedy cfg.distanceThreshold
    (MahalanobisAssociator.sortByDistance
      (MahalanobisAssociator.allCandidates gth R tracks clusters)) with hmdef
  have hbounds : ∀ m ∈ matched,
      m.trackIndex < tracks.length ∧ m.clusterIndex < clusters.length := by
    intro m hm
    exact allCandidates_bounds gth R tracks clusters m
      ((sortByDistance_mem m _).mp
        (greedy_subset cfg.distanceThreshold _ m (hmdef ▸ hm)))
  have hpw := greedy_pairwise cfg.distanceThreshold
    (MahalanobisAssociator.sortByDistance
      (MahalanobisAssociator.allCandidates gth R tracks clusters))
  rw [← hmdef] at hpw
  have htr := filter_complement tracks.length
    (fun m : AssociationResult => m.trackIndex) matched
    (hpw.imp (fun h => h.1)) (fun m hm => (hbounds m hm).1)
  have hcl := filter_complement clusters.length
    (fun m : AssociationResult => m.clusterIndex) matched
    (hpw.imp (fun h => h.2)) (fun m hm => (hbounds m hm).2)
  have hout : MahalanobisAssociator.associate cfg gth tracks clusters R =
      { matched := matched
        unmatchedTracks := (List.range tracks.length).filter
          (fun t => !(matched.any (fun m => m.trackIndex == t)))
        unmatchedClusters := (List.range clusters.length).filter
          (fun c => !(matched.any (fun m => m.clusterIndex == c))) } := rfl
  rw [hout]
  exact ⟨⟨htr.1, fun m hm => (hbounds m hm).1, htr.2.1, htr.2.2⟩,
         ⟨hcl.1, fun m hm => (hbounds m hm).2, hcl.2.1, hcl.2.2⟩⟩

theorem accumulate_cases (acc : List AssociationResult × List ℕ)
    (w : JPDAWeights) :
    (∃ e : AssociationResult, e.trackIndex = w.trackIndex ∧
      JPDAAssociator.accumulate acc w = (acc.1 ++ [e], acc.2))
    ∨ JPDAAssociator.accumulate acc w = (acc.1, acc.2 ++ [w.trackIndex]) := by
  unfold JPDAAssociator.accumulate
  split_ifs with h
  · exact Or.inr rfl
  · rcases hb : (JPDAAssociator.selectBest w.clusterWeights).2 with _ | bc
    · simp only [hb]
      exact Or.inr trivial
    · simp only [hb]
      exact Or.inl ⟨_, rfl, rfl⟩

theorem weightsForTrack_trackIndex (rexp rsqrt : ℚ → ℚ) (cfg : JPDAConfig)
    (R : Mat3) (t : ℕ) (st : IMMState) (clusters : List Cluster) :
    (JPDAAssociator.weightsForTrack rexp rsqrt cfg R t st clusters).trackIndex
      = t := by
  unfold JPDAAssociator.weightsForTrack
  dsimp only
  split
  · rfl
  · split_ifs <;> rfl

theorem computeWeights_map_trackIndex (rexp rsqrt : ℚ → ℚ)
    (cfg : JPDAConfig) (R : Mat3) (tracks : List IMMState)
    (clusters : List Cluster) :
    (JPDAAssociator.computeWeights rexp rsqrt cfg R tracks clusters).map
      JPDAWeights.trackIndex = List.range tracks.length := by
  unfold JPDAAssociator.computeWeights
  rw [List.map_map]
  have h : (JPDAWeights.trackIndex ∘ fun p : ℕ × IMMState =>
      JPDAAssociator.weightsForTrack rexp rsqrt cfg R p.1 p.2 clusters)
      = Prod.fst := by
    funext p
    exact weightsForTrack_trackIndex rexp rsqrt cfg R p.1 p.2 clusters
  rw [h, List.enum_map_fst]

theorem jpda_fold_spec (ws : List JPDAWeights) :
    ∀ acc : List AssociationResult × List ℕ,
    (∀ t : ℕ,
      (ws.foldl JPDAAssociator.accumulate acc).1.countP
          (fun m => m.trackIndex == t)
        + (ws.foldl JPDAAssociator.accumulate acc).2.count t
      = acc.1.countP (fun m => m.trackIndex == t) + acc.2.count t
        + (ws.map JPDAWeights.trackIndex).count t)
    ∧ (ws.foldl JPDAAssociator.accumulate acc).1.length
        + (ws.foldl JPDAAssociator.accumulate acc).2.length
      = acc.1.length + acc.2.length + ws.length
    ∧ (∀ m ∈ (ws.foldl JPDAAssociator.accumulate acc).1,
        m ∈ acc.1 ∨ m.trackIndex ∈ ws.map JPDAWeights.trackIndex)
    ∧ (∀ x ∈ (ws.foldl JPDAAssociator.accumulate acc).2,
        x ∈ acc.2 ∨ x ∈ ws.map JPDAWeights.trackIndex) := by
  induction ws with
  | nil =>
    intro acc
    refine ⟨fun t => by simp, by simp, fun m hm => Or.inl hm,
      fun x hx => Or.inl hx⟩
  | cons w ws ih =>
    intro acc
    simp only [List.foldl_cons, List.map_cons]
    rcases accumulate_cases acc w with ⟨e, he, hacc⟩ | hacc <;> rw [hacc]
    · refine ⟨fun t => ?_, ?_, fun m hm => ?_, fun x hx => ?_⟩
      · rw [(ih _).1 t]
        simp only [List.countP_append, List.countP_cons, List.countP_nil,
          List.count_cons, he]
        omega
      · rw [(ih _).2.1]
        simp only [List.length_append, List.length_singleton, List.length_cons, List.length_nil]
        omega
      · rcases (ih _).2.2.1 m hm with h | h
        · rw [List.mem_append, List.mem_singleton] at h
          rcases h with h | h
          · exact Or.inl h
          · exact Or.inr (by rw [h, he]; exact List.mem_cons_self _ _)
        · exact Or.inr (List.mem_cons_of_mem _ h)
      · rcases (ih _).2.2.2 x hx with h | h
        · exact Or.inl h
        · exact Or.inr (List.mem_cons_of_mem _ h)
    · refine ⟨fun t => ?_, ?_, fun m hm => ?_, fun x hx => ?_⟩
      · rw [(ih _).1 t]
        simp only [List.count_append, List.count_cons, List.count_singleton,
          List.count_nil]
        omega
      · rw [(ih _).2.1]
        simp only [List.length_append, List.length_singleton, List.length_cons, List.length_nil]
        omega
      · rcases (ih _).2.2.1 m hm with h | h
        · exact Or.inl h
        · exact Or.inr (List.mem_cons_of_mem _ h)
      · rcases (ih _).2.2.2 x hx with h | h
        · rw [List.mem_append, List.mem_singleton] at h
          rcases h with h | h
          · exact Or.inl h
          · exact Or.inr (by rw [h]; exact List.mem_cons_self _ _)
        · exact Or.inr (List.mem_cons_of_mem _ h)

theorem weak_cluster_partition_filter (nC : ℕ)
    (matched : List AssociationResult) (u : List ℕ) :
    WeakClusterPartition nC
      { matched := matched
        unmatchedTracks := u
        unmatchedClusters := (List.range nC).filter
          (fun c => !(matched.any (fun m => m.clusterIndex == c))) } := by
  constructor
  · intro c hc
    by_cases h : (matched.any fun m => m.clusterIndex == c) = true
    · right
      have h9 := h
      rw [List.any_eq_true] at h9
      obtain ⟨m, hm, hmc⟩ := h9
      refine ⟨List.countP_pos_iff.mpr ⟨m, hm, hmc⟩, ?_⟩
      rw [List.count_eq_zero]
      intro hmem
      simp only [List.mem_filter] at hmem
      rw [h] at hmem
      simp at hmem
    · left
      rw [Bool.not_eq_true] at h
      constructor
      · rw [List.countP_eq_zero]
        intro m hm
        intro hmc
        have hany : (matched.any fun m => m.clusterIndex == c) = true :=
          List.any_eq_true.mpr ⟨m, hm, hmc⟩
        rw [h] at hany
        cases hany
      · have hnd : ((List.range nC).filter
            (fun c => !(matched.any (fun m => m.clusterIndex == c)))).Nodup :=
          List.Nodup.filter _ (List.nodup_range nC)
        have hin : c ∈ (List.range nC).filter
            (fun c => !(matched.any (fun m => m.clusterIndex == c))) := by
          simp only [List.mem_filter, List.mem_range]
          exact ⟨hc, by rw [h]; rfl⟩
        exact List.count_eq_one_of_mem hnd hin
  · intro c hc
    rw [List.mem_filter, List.mem_range] at hc
    exact hc.1

theorem jpda_association_partition (rexp rsqrt : ℚ → ℚ) (cfg : JPDAConfig)
    (tracks : List IMMState) (clusters : List Cluster) (R : Mat3) :
    TrackPartition tracks.length
      (JPDAAssociator.associate rexp rsqrt cfg tracks clusters R)
    ∧ WeakClusterPartition clusters.length
      (JPDAAssociator.associate rexp rsqrt cfg tracks clusters R) := by
  set ws := JPDAAssociator.computeWeights rexp rsqrt cfg R tracks clusters
    with hws
  set step := ws.foldl JPDAAssociator.accumulate ([], []) with hstep
  have hout : JPDAAssociator.associate rexp rsqrt cfg tracks clusters R =
      { matched := step.1
        unmatchedTracks := step.2
        unmatchedClusters := (List.range clusters.length).filter
          (fun c => !(step.1.any (fun m => m.clusterIndex == c))) } := rfl
  have hmap : ws.map JPDAWeights.trackIndex = List.range tracks.length := by
    rw [hws]
    exact computeWeights_map_trackIndex rexp rsqrt cfg R tracks clusters
  have hlen : ws.length = tracks.length := by
    have := congrArg List.length hmap
    rw [List.length_map, List.length_range] at this
    exact this
  have hspec := jpda_fold_spec ws ([], [])
  rw [hout]
  constructor
  · refine ⟨fun t ht => ?_, fun m hm => ?_, fun t ht => ?_, ?_⟩
    · have h1 := hspec.1 t
      rw [hmap] at h1
      rw [← hstep] at h1
      rw [h1]
      simp only [List.countP_nil, List.count_nil]
      have : (List.range tracks.length).count t = 1 :=
        List.count_eq_one_of_mem (List.nodup_range tracks.length)
          (List.mem_range.mpr ht)
      omega
    · rcases hspec.2.2.1 m (hstep ▸ hm) with h | h
      · cases h
      · rw [hmap, List.mem_range] at h
        exact h
    · rcases hspec.2.2.2 t (hstep ▸ ht) with h | h
      · cases h
      · rw [hmap, List.mem_range] at h
        exact h
    · have h2 := hspec.2.1
      rw [← hstep] at h2
      simp only [List.length_nil] at h2
      rw [h2, hlen]
      omega
  · exact weak_cluster_partition_filter clusters.length step.1 step.2

theorem foldl_preserve_mem {α β : Type} (P : β → Prop) (f : β → α → β)
    (l : List α) (hstep : ∀ b a, a ∈ l → P b → P (f b a)) :
    ∀ b, P b → P (l.foldl f b) := by
  induction l with
  | nil => exact fun b hb => hb
  | cons a l ih =>
    intro b hb
    rw [List.foldl_cons]
    exact ih (fun b' a' ha' hb' => hstep b' a' (List.mem_cons_of_mem a ha') hb')
      _ (hstep b a (List.mem_cons_self a l) hb)

theorem getD_set_self {α : Type} (l : List α) (i : ℕ) (a d : α)
    (h : i < l.length) : (l.set i a).getD i d = a := by
  simp [List.getD, List.getElem?_set, h]

theorem getD_set_ne {α : Type} (l : List α) (i j : ℕ) (a d : α)
    (h : i ≠ j) : (l.set i a).getD j d = l.getD j d := by
  simp [List.getD, List.getElem?_set, h]

theorem getD_replicate_none (nT i : ℕ) :
    (List.replicate nT (none : Option ℕ)).getD i none = none := by
  simp [List.getD, List.getElem?_replicate]
  split_ifs <;> rfl

theorem bestColumn_spec (nC : ℕ) (Cred : ℕ → ℕ → ℚ) (used : List Bool)
    (i j : ℕ) (h : (GNNAssociator.bestColumn nC Cred used i).2 = some j) :
    used.getD j false = false ∧ j < nC := by
  unfold GNNAssociator.bestColumn at h
  suffices H : ∀ (l : List ℕ) (acc : ℚ × Option ℕ),
      (∀ x ∈ l, x < nC) →
      (∀ y, acc.2 = some y → used.getD y false = false ∧ y < nC) →
      ∀ y, (l.foldl
        (fun best j =>
          if used.getD j false then best
          else if Cred i j < best.1 then (Cred i j, some j) else best)
        acc).2 = some y → used.getD y false = false ∧ y < nC by
    exact H (List.range nC) (GNNAssociator.INF, none)
      (fun x hx => List.mem_range.mp hx) (fun y hy => by cases hy) j h
  intro l
  induction l with
  | nil => exact fun acc _ hacc y hy => hacc y hy
  | cons a l ih =>
    intro acc hl hacc y hy
    rw [List.foldl_cons] at hy
    refine ih _ (fun x hx => hl x (List.mem_cons_of_mem a hx)) ?_ y hy
    intro z hz
    by_cases hu : used.getD a false = true
    · rw [if_pos hu] at hz
      exact hacc z hz
    · rw [Bool.not_eq_true] at hu
      rw [if_neg (by rw [hu]; exact Bool.false_ne_true)] at hz
      by_cases hlt : Cred i a < acc.1
      · rw [if_pos hlt] at hz
        injection hz with hz
        subst hz
        exact ⟨hu, hl a (List.mem_cons_self a l)⟩
      · rw [if_neg hlt] at hz
        exact hacc z hz

theorem greedyPass_inv (nT nC n : ℕ) (Cred cost : ℕ → ℕ → ℚ) (thr : ℚ)
    (hn : nC ≤ n) (st : List (Option ℕ) × List Bool)
    (hst : AssignInv nT n st) :
    AssignInv nT n (GNNAssociator.greedyPass nT nC Cred cost thr st) := by
  unfold GNNAssociator.greedyPass
  refine foldl_preserve_mem (AssignInv nT n) _ (List.range nT) ?_ st hst
  intro s i hi hs
  obtain ⟨h1, h2, h3, h4⟩ := hs
  rw [List.mem_range] at hi
  by_cases ha : (s.1.getD i none).isSome = true
  · rw [if_pos ha]
    exact ⟨h1, h2, h3, h4⟩
  · rw [if_neg ha]
    rcases hbc : (GNNAssociator.bestColumn nC Cred s.2 i).2 with _ | j
    · simp only [hbc]
      exact ⟨h1, h2, h3, h4⟩
    · simp only [hbc]
      obtain ⟨hju, hjC⟩ := bestColumn_spec nC Cred s.2 i j hbc
      by_cases hc : cost i j < thr
      · rw [if_pos hc]
        have hjn : j < n := lt_of_lt_of_le hjC hn
        have hilen : i < s.1.length := by rw [h1]; exact hi
        have hjlen : j < s.2.length := by rw [h2]; exact hjn
        refine ⟨by rw [List.length_set]; exact h1,
                by rw [List.length_set]; exact h2, ?_, ?_⟩
        · intro i0 j0 hij0
          by_cases hii : i = i0
          · subst hii
            rw [getD_set_self s.1 i (some j) none hilen] at hij0
            injection hij0 with hij0
            subst hij0
            exact ⟨hjn, getD_set_self s.2 j true false hjlen⟩
          · rw [getD_set_ne s.1 i i0 (some j) none hii] at hij0
            obtain ⟨hj0n, hj0u⟩ := h3 i0 j0 hij0
            refine ⟨hj0n, ?_⟩
            by_cases hjj : j = j0
            · subst hjj
              exact getD_set_self s.2 j true false hjlen
            · rw [getD_set_ne s.2 j j0 true false hjj]
              exact hj0u
        · intro i0 i1 j0 hij0 hij1
          by_cases hii0 : i = i0 <;> by_cases hii1 : i = i1
          · omega
          · subst hii0
            rw [getD_set_self s.1 i (some j) none hilen] at hij0
            injection hij0 with hij0
            rw [getD_set_ne s.1 i i1 (some j) none hii1] at hij1
            subst hij0
            have hused := (h3 i1 j hij1).2
            rw [hju] at hused
            exact absurd hused Bool.false_ne_true
          · subst hii1
            rw [getD_set_self s.1 i (some j) none hilen] at hij1
            injection hij1 with hij1
            rw [getD_set_ne s.1 i i0 (some j) none hii0] at hij0
            subst hij1
            have hused := (h3 i0 j hij0).2
            rw [hju] at hused
            exact absurd hused Bool.false_ne_true
          · rw [getD_set_ne s.1 i i0 (some j) none hii0] at hij0
            rw [getD_set_ne s.1 i i1 (some j) none hii1] at hij1
            exact h4 i0 i1 j0 hij0 hij1
      · rw [if_neg hc]
        exact ⟨h1, h2, h3, h4⟩

theorem assignInv_init (nT n : ℕ) :
    AssignInv nT n (List.replicate nT none, List.replicate n false) := by
  refine ⟨by simp, by simp, ?_, ?_⟩
  · intro i j h
    rw [show ((List.replicate nT (none : Option ℕ), List.replicate n false)).1
        = List.replicate nT none from rfl, getD_replicate_none] at h
    cases h
  · intro i i' j h _
    rw [show ((List.replicate nT (none : Option ℕ), List.replicate n false)).1
        = List.replicate nT none from rfl, getD_replicate_none] at h
    cases h

theorem hungarianAssignment_spec (thr : ℚ) (cost : ℕ → ℕ → ℚ) (nT nC : ℕ) :
    (GNNAssociator.hungarianAssignment thr cost nT nC).length = nT
    ∧ ∀ i i' j,
      (GNNAssociator.hungarianAssignment thr cost nT nC).getD i none
        = some j →
      (GNNAssociator.hungarianAssignment thr cost nT nC).getD i' none
        = some j →
      i = i' := by
  have hn : nC ≤ max nT nC := le_max_right nT nC
  have h0 := assignInv_init nT (max nT nC)
  have h1 := greedyPass_inv nT nC (max nT nC)
    (GNNAssociator.colReduce (max nT nC)
      (GNNAssociator.rowReduce (max nT nC) (GNNAssociator.padded nT nC cost)))
    cost thr hn _ h0
  have h2 := greedyPass_inv nT nC (max nT nC)
    (GNNAssociator.colReduce (max nT nC)
      (GNNAssociator.rowReduce (max nT nC) (GNNAssociator.padded nT nC cost)))
    cost thr hn _ h1
  have h3 := greedyPass_inv nT nC (max nT nC)
    (GNNAssociator.colReduce (max nT nC)
      (GNNAssociator.rowReduce (max nT nC) (GNNAssociator.padded nT nC cost)))
    cost thr hn _ h2
  exact ⟨h3.1, h3.2.2.2⟩

theorem gnn_generic_partition (nT nC : ℕ) (cost : ℕ → ℕ → ℚ)
    (A : List (Option ℕ))
    (hinj : ∀ i i' j, A.getD i none = some j → A.getD i' none = some j →
      i = i')
    (matched : List AssociationResult)
    (hm : matched = (List.range nT).filterMap fun t =>
      match A.getD t none with
      | some j => if j < nC then some (⟨t, j, cost t j⟩ : AssociationResult)
                  else none
      | none => none) :
    TrackPartition nT
      { matched := matched
        unmatchedTracks := (List.range nT).filter fun t =>
          match A.getD t none with
          | some j => !(decide (j < nC))
          | none => true
        unmatchedClusters := (List.range nC).filter
          (fun c => !(matched.any (fun m => m.clusterIndex == c))) }
    ∧ ClusterPartition nC
      { matched := matched
        unmatchedTracks := (List.range nT).filter fun t =>
          match A.getD t none with
          | some j => !(decide (j < nC))
          | none => true
        unmatchedClusters := (List.range nC).filter
          (fun c => !(matched.any (fun m => m.clusterIndex == c))) } := by
  have hgdom : ∀ t m, (match A.getD t none with
      | some j => if j < nC then some (⟨t, j, cost t j⟩ : AssociationResult)
                  else none
      | none => none) = some m →
      m.trackIndex = t ∧ m.clusterIndex < nC ∧
        A.getD t none = some m.clusterIndex := by
    intro t m h
    rcases hA : A.getD t none with _ | j
    · simp only [hA] at h
      cases h
    · simp only [hA] at h
      split_ifs at h with hj
      · injection h with h
        subst h
        exact ⟨rfl, hj, rfl⟩
  have hmemM : ∀ m, m ∈ matched ↔ ∃ t, t < nT ∧ (match A.getD t none with
      | some j => if j < nC then some (⟨t, j, cost t j⟩ : AssociationResult)
                  else none
      | none => none) = some m := by
    intro m
    rw [hm, List.mem_filterMap]
    constructor
    · rintro ⟨t, ht, hgt⟩
      exact ⟨t, List.mem_range.mp ht, hgt⟩
    · rintro ⟨t, ht, hgt⟩
      exact ⟨t, List.mem_range.mpr ht, hgt⟩
  have hbounds : ∀ m ∈ matched, m.trackIndex < nT ∧ m.clusterIndex < nC := by
    intro m hmm
    obtain ⟨t, ht, hgt⟩ := (hmemM m).mp hmm
    obtain ⟨hb1, hb2, _⟩ := hgdom t m hgt
    exact ⟨hb1 ▸ ht, hb2⟩
  have hpwT : matched.Pairwise (fun a b => a.trackIndex ≠ b.trackIndex) := by
    rw [hm, List.pairwise_filterMap]
    refine List.Pairwise.imp ?_ (List.pairwise_lt_range nT)
    intro a b hab x hx y hy
    rw [Option.mem_def] at hx hy
    rw [(hgdom a x hx).1, (hgdom b y hy).1]
    omega
  have hpwC : matched.Pairwise (fun a b => a.clusterIndex ≠ b.clusterIndex) := by
    rw [hm, List.pairwise_filterMap]
    refine List.Pairwise.imp ?_ (List.pairwise_lt_range nT)
    intro a b hab x hx y hy hEq
    rw [Option.mem_def] at hx hy
    have hxA := (hgdom a x hx).2.2
    have hyA := (hgdom b y hy).2.2
    rw [hEq] at hxA
    have := hinj a b y.clusterIndex hxA hyA
    omega
  have hiff : ∀ t, t < nT → (matched.any fun m => m.trackIndex == t)
      = (match A.getD t none with
         | some j => decide (j < nC)
         | none => false) := by
    intro t ht
    rcases hA : A.getD t none with _ | j
    · show (matched.any fun m => m.trackIndex == t) = false
      rw [List.any_eq_false]
      intro m hmm hmt
      obtain ⟨t', ht', hgt'⟩ := (hmemM m).mp hmm
      have h1 := (hgdom t' m hgt').1
      rw [beq_iff_eq] at hmt
      have htt : t' = t := by rw [← h1, hmt]
      subst htt
      simp only [hA] at hgt'
      exact Option.noConfusion hgt'
    · by_cases hj : j < nC
      · have hany : (matched.any fun m => m.trackIndex == t) = true :=
          List.any_eq_true.mpr ⟨⟨t, j, cost t j⟩,
            (hmemM _).mpr ⟨t, ht, by rw [hA]; exact if_pos hj⟩,
            beq_self_eq_true t⟩
        rw [hany]
        exact (decide_eq_true hj).symm
      · have hnone : (matched.any fun m => m.trackIndex == t) = false := by
          rw [List.any_eq_false]
          intro m hmm hmt
          obtain ⟨t', ht', hgt'⟩ := (hmemM m).mp hmm
          have h1 := (hgdom t' m hgt').1
          rw [beq_iff_eq] at hmt
          have htt : t' = t := by rw [← h1, hmt]
          subst htt
          simp only [hA] at hgt'
          rw [if_neg hj] at hgt'
          exact Option.noConfusion hgt'
        rw [hnone]
        exact (decide_eq_false hj).symm
  have hfiltT : ((List.range nT).filter fun t =>
        match A.getD t none with
        | some j => !(decide (j < nC))
        | none => true)
      = (List.range nT).filter
        (fun t => !(matched.any fun m => m.trackIndex == t)) := by
    apply List.filter_congr
    intro t ht
    rw [List.mem_range] at ht
    show (match A.getD t none with
          | some j => !(decide (j < nC))
          | none => true)
        = !(matched.any fun m => m.trackIndex == t)
    rw [hiff t ht]
    rcases A.getD t none with _ | j
    · rfl
    · rfl
  have htr := filter_complement nT
    (fun m : AssociationResult => m.trackIndex) matched hpwT
    (fun m hmm => (hbounds m hmm).1)
  have hcl := filter_complement nC
    (fun m : AssociationResult => m.clusterIndex) matched hpwC
    (fun m hmm => (hbounds m hmm).2)
  rw [hfiltT]
  exact ⟨⟨htr.1, fun m hmm => (hbounds m hmm).1, htr.2.1, htr.2.2⟩,
         ⟨hcl.1, fun m hmm => (hbounds m hmm).2, hcl.2.1, hcl.2.2⟩⟩

theorem gnn_association_partition (cfg : GNNConfig) (gth : ℚ)
    (tracks : List IMMState) (clusters : List Cluster) (R : Mat3) :
    TrackPartition tracks.length
      (GNNAssociator.associate cfg gth tracks clusters R)
    ∧ ClusterPartition clusters.length
      (GNNAssociator.associate cfg gth tracks clusters R) := by
  have hspec := hungarianAssignment_spec cfg.costThreshold
    (GNNAssociator.costMatrix gth R tracks clusters) tracks.length
    clusters.length
  exact gnn_generic_partition tracks.length clusters.length
    (GNNAssociator.costMatrix gth R tracks clusters)
    (GNNAssociator.hungarianAssignment cfg.costThreshold
      (GNNAssociator.costMatrix gth R tracks clusters) tracks.length
      clusters.length)
    hspec.2 _ rfl

/-- C1 (amended): for every associator and all inputs, the track side of
the output is a partition of the input track indices (each track index in
exactly one matched triple or the unmatched-track list, with
`len(matched) + len(unmatched_tracks) = len(tracks_in)`).  For the
nearest-neighbor and GNN associators the cluster side is likewise a full
partition.  For the JPDA associator the cluster side satisfies only the
weak form: every cluster index is either in the unmatched-cluster list
and in no matched triple, or in at least one matched triple — possibly
several, so a cluster may appear in more than one triple and
`len(matched) + len(unmatched_clusters) = len(clusters_in)` can fail
(see the counterexample). -/
theorem association_output_partition (cfg : MahalanobisConfig)
    (gcfg : GNNConfig) (jcfg : JPDAConfig) (rexp rsqrt : ℚ → ℚ) (gth : ℚ)
    (R : Mat3) (tracks : List IMMState) (clusters : List Cluster) :
    (TrackPartition tracks.length
        (MahalanobisAssociator.associate cfg gth tracks clusters R)
      ∧ ClusterPartition clusters.length
        (MahalanobisAssociator.associate cfg gth tracks clusters R))
    ∧ (TrackPartition tracks.length
        (GNNAssociator.associate gcfg gth tracks clusters R)
      ∧ ClusterPartition clusters.length
        (GNNAssociator.associate gcfg gth tracks clusters R))
    ∧ (TrackPartition tracks.length
        (JPDAAssociator.associate rexp rsqrt jcfg tracks clusters R)
      ∧ WeakClusterPartition clusters.length
        (JPDAAssociator.associate rexp rsqrt jcfg tracks clusters R)) :=
  ⟨nn_association_partition cfg gth tracks clusters R,
   gnn_association_partition gcfg gth tracks clusters R,
   jpda_association_partition rexp rsqrt jcfg tracks clusters R⟩

set_option maxRecDepth 8000 in
/-- C1 counterexample: two tracks with identical IMM states (both at the
origin with zero covariance) and a single cluster at the origin.  With
`R = I`, detection probability 0.9, clutter density 0.01 and gate 9,
JPDAAssociator::associate matches BOTH tracks to cluster 0 — the source
pushes a best-β match per track without checking whether the cluster is
already matched — so the matched list has two triples for one cluster
and `len(matched) + len(unmatched_clusters) = 2 ≠ 1 = len(clusters_in)`:
the spec's cluster-side partition claim fails for JPDA. -/
theorem jpda_cluster_double_match_counterexample :
    ¬ ClusterPartition 1
      (JPDAAssociator.associate ceExp ceExp ⟨1/100, 9/10, 9⟩
        [ceStateZero, ceStateZero] [ceClusterA] ceId3) := by
  intro h
  exact absurd h.2.2.2 (by decide)


theorem getD_set_cases (l : List ℤ) (q i : ℕ) (v : ℤ) :
    (l.set q v).getD i 0 = l.getD i 0 ∨ (l.set q v).getD i 0 = v := by
  by_cases h : q = i
  · subst h
    by_cases hq : q < l.length
    · exact Or.inr (getD_set_self l q v 0 hq)
    · rw [List.set_eq_of_length_le (by omega)]
      exact Or.inl rfl
  · rw [getD_set_ne l q i v 0 h]
    exact Or.inl rfl

theorem promoteNoise_length (cl : ℕ) (labels : List ℤ) (q : ℕ) :
    (DBScanClusterer.promoteNoise cl labels q).length = labels.length := by
  unfold DBScanClusterer.promoteNoise
  split <;> simp

theorem promoteNoise_getD (cl : ℕ) (labels : List ℤ) (q i : ℕ) :
    (DBScanClusterer.promoteNoise cl labels q).getD i 0 = labels.getD i 0
    ∨ (DBScanClusterer.promoteNoise cl labels q).getD i 0 = (cl : ℤ) := by
  unfold DBScanClusterer.promoteNoise
  split
  · exact getD_set_cases labels q i _
  · exact Or.inl rfl

theorem expand_spec (cfg : DBScanConfig) (dets : List Detection)
    (currentLabel : ℕ) (labels : List ℤ) (queue : List ℕ) :
    (DBScanClusterer.expand cfg dets currentLabel labels queue).length
      = labels.length
    ∧ ∀ i : ℕ,
      (DBScanClusterer.expand cfg dets currentLabel labels queue).getD i 0
        = labels.getD i 0
      ∨ (DBScanClusterer.expand cfg dets currentLabel labels queue).getD i 0
        = (currentLabel : ℤ) := by
  induction labels, queue
    using DBScanClusterer.expand.induct cfg dets currentLabel with
  | case1 labels =>
    rw [DBScanClusterer.expand]
    exact ⟨rfl, fun i => Or.inl rfl⟩
  | case2 labels q queue hq labels2 qN ih =>
    rw [DBScanClusterer.expand, dif_pos hq]
    dsimp only
    unfold_let labels2 qN at ih
    simp only [dite_eq_ite] at ih
    refine ⟨?_, fun i => ?_⟩
    · rw [ih.1, List.length_set, promoteNoise_length]
    · rcases ih.2 i with h | h
      · rw [h]
        rcases getD_set_cases (DBScanClusterer.promoteNoise currentLabel labels q)
            q i (currentLabel : ℤ) with h2 | h2
        · rw [h2]
          exact promoteNoise_getD currentLabel labels q i
        · exact Or.inr h2
      · exact Or.inr h
  | case3 labels q queue hq ih =>
    rw [DBScanClusterer.expand, dif_neg hq]
    refine ⟨?_, fun i => ?_⟩
    · rw [ih.1, promoteNoise_length]
    · rcases ih.2 i with h | h
      · rw [h]
        exact promoteNoise_getD currentLabel labels q i
      · exact Or.inr h

theorem mainLoop_spec (cfg : DBScanConfig) (dets : List Detection) :
    ∀ (L : List ℕ) (labels : List ℤ) (cl : ℕ),
    (DBScanClusterer.mainLoop cfg dets L labels cl).1.length = labels.length
    ∧ cl ≤ (DBScanClusterer.mainLoop cfg dets L labels cl).2
    ∧ (∀ i : ℕ,
        (DBScanClusterer.mainLoop cfg dets L labels cl).1.getD i 0
          = labels.getD i 0
        ∨ (DBScanClusterer.mainLoop cfg dets L labels cl).1.getD i 0 = -2
        ∨ ∃ lab : ℕ, cl ≤ lab
            ∧ lab < (DBScanClusterer.mainLoop cfg dets L labels cl).2
            ∧ (DBScanClusterer.mainLoop cfg dets L labels cl).1.getD i 0
              = (lab : ℤ))
    ∧ (∀ i ∈ L, i < labels.length →
        (DBScanClusterer.mainLoop cfg dets L labels cl).1.getD i 0 ≠ -1) := by
  intro L
  induction L with
  | nil =>
    intro labels cl
    exact ⟨rfl, Nat.le_refl cl, fun i => Or.inl rfl, fun i hi => absurd hi
      (List.not_mem_nil i)⟩
  | cons i rest ih =>
    intro labels cl
    rw [DBScanClusterer.mainLoop]
    by_cases hi : labels.getD i 0 ≠ -1
    · rw [if_pos hi]
      obtain ⟨g1, g2, g3, g4⟩ := ih labels cl
      refine ⟨g1, g2, g3, fun i' hi' hlen => ?_⟩
      rcases List.mem_cons.mp hi' with h | h
      · subst h
        rcases g3 i' with h2 | h2 | ⟨lab, _, _, h2⟩ <;> rw [h2]
        · exact hi
        · exact (by decide : (-2 : ℤ) ≠ -1)
        · exact (by omega : ((lab : ℤ) ≠ -1))
      · exact g4 i' h hlen
    · rw [if_neg hi]
      by_cases hn : (DBScanClusterer.rangeQuery cfg dets i).length < cfg.minPoints
      · rw [if_pos hn]
        obtain ⟨g1, g2, g3, g4⟩ := ih (labels.set i (-2)) cl
        refine ⟨by rw [g1, List.length_set], g2, fun i' => ?_,
          fun i' hi' hlen => ?_⟩
        · rcases g3 i' with h2 | h2 | ⟨lab, hl1, hl2, h2⟩
          · rcases getD_set_cases labels i i' (-2) with h3 | h3
            · exact Or.inl (by rw [h2, h3])
            · exact Or.inr (Or.inl (by rw [h2, h3]))
          · exact Or.inr (Or.inl h2)
          · exact Or.inr (Or.inr ⟨lab, hl1, hl2, h2⟩)
        · rcases List.mem_cons.mp hi' with h | h
          · subst h
            rcases g3 i' with h2 | h2 | ⟨lab, _, _, h2⟩ <;> rw [h2]
            · rw [getD_set_self labels i' (-2) 0 hlen]
              exact (by decide : (-2 : ℤ) ≠ -1)
            · exact (by decide : (-2 : ℤ) ≠ -1)
            · exact (by omega : ((lab : ℤ) ≠ -1))
          · exact g4 i' h (by rw [List.length_set]; exact hlen)
      · rw [if_neg hn]
        dsimp only
        have hexp := expand_spec cfg dets cl (labels.set i (cl : ℤ))
          (DBScanClusterer.rangeQuery cfg dets i)
        set labels2 := DBScanClusterer.expand cfg dets cl
          (labels.set i (cl : ℤ)) (DBScanClusterer.rangeQuery cfg dets i)
          with hl2def
        obtain ⟨g1, g2, g3, g4⟩ := ih labels2 (cl + 1)
        have hlen2 : labels2.length = labels.length := by
          rw [hexp.1, List.length_set]
        refine ⟨by rw [g1, hlen2], by omega, fun i' => ?_,
          fun i' hi' hlen => ?_⟩
        · rcases g3 i' with h2 | h2 | ⟨lab, hl1, hl2, h2⟩
          · rcases hexp.2 i' with h3 | h3
            · rcases getD_set_cases labels i i' (cl : ℤ) with h4 | h4
              · exact Or.inl (by rw [h2, h3, h4])
              · exact Or.inr (Or.inr ⟨cl, Nat.le_refl cl,
                  by omega, by rw [h2, h3, h4]⟩)
            · exact Or.inr (Or.inr ⟨cl, Nat.le_refl cl,
                by omega, by rw [h2, h3]⟩)
          · exact Or.inr (Or.inl h2)
          · exact Or.inr (Or.inr ⟨lab, by omega, hl2, h2⟩)
        · rcases List.mem_cons.mp hi' with h | h
          · subst h
            rcases g3 i' with h2 | h2 | ⟨lab, hlab, _, h2⟩ <;> rw [h2]
            · rcases hexp.2 i' with h3 | h3
              · rw [h3, getD_set_self labels i' (cl : ℤ) 0 hlen]
                exact (by omega : ((cl : ℤ) ≠ -1))
              · rw [h3]
                exact (by omega : ((cl : ℤ) ≠ -1))
            · exact (by decide : (-2 : ℤ) ≠ -1)
            · exact (by omega : ((lab : ℤ) ≠ -1))
          · exact g4 i' h (by rw [hlen2]; exact hlen)

theorem count_filter_range (n : ℕ) (p : ℕ → Bool) (i : ℕ) :
    ((List.range n).filter p).count i
      = if i < n ∧ p i = true then 1 else 0 := by
  by_cases h : i < n ∧ p i = true
  · rw [if_pos h]
    exact List.count_eq_one_of_mem (List.Nodup.filter p (List.nodup_range n))
      (List.mem_filter.mpr ⟨List.mem_range.mpr h.1, h.2⟩)
  · rw [if_neg h]
    rw [List.count_eq_zero]
    intro hc
    rw [List.mem_filter, List.mem_range] at hc
    exact h hc

theorem sum_map_range_zero (f : ℕ → ℕ) (k : ℕ)
    (hf : ∀ lab, lab < k → f lab = 0) :
    ((List.range k).map f).sum = 0 := by
  apply List.sum_eq_zero
  intro x hx
  rw [List.mem_map] at hx
  obtain ⟨lab, hlab, hx⟩ := hx
  rw [← hx]
  exact hf lab (List.mem_range.mp hlab)

theorem sum_map_range_single (f : ℕ → ℕ) (lab0 : ℕ)
    (hf : ∀ lab, lab ≠ lab0 → f lab = 0) :
    ∀ k, ((List.range k).map f).sum = if lab0 < k then f lab0 else 0 := by
  intro k
  induction k with
  | zero => simp
  | succ k ih =>
    rw [List.range_succ, List.map_append, List.sum_append, ih]
    simp only [List.map_cons, List.map_nil, List.sum_cons, List.sum_nil]
    by_cases h : k = lab0
    · subst h
      rw [if_neg (by omega), if_pos (by omega)]
      omega
    · rw [hf k h]
      by_cases h2 : lab0 < k
      · rw [if_pos h2, if_pos (by omega)]
        omega
      · rw [if_neg h2, if_neg (by omega)]
        omega

theorem getD_replicate_neg_one (n i : ℕ) (hi : i < n) :
    (List.replicate n (-1 : ℤ)).getD i 0 = -1 := by
  simp [List.getD, List.getElem?_replicate, hi]

theorem buildClusterFrom_detectionIndices (pow10 : ℚ → ℚ)
    (dets : List Detection) (indices : List ℕ) (id : ℕ) :
    (buildClusterFrom pow10 dets indices id).detectionIndices = indices := rfl

theorem buildClusterFrom_numDetections (pow10 : ℚ → ℚ)
    (dets : List Detection) (indices : List ℕ) (id : ℕ) :
    (buildClusterFrom pow10 dets indices id).numDetections
      = (buildClusterFrom pow10 dets indices id).detectionIndices.length := rfl

theorem noise_count_sum (pow10 : ℚ → ℚ) (dets : List Detection) (k : ℕ)
    (noiseIdx : List ℕ) (i : ℕ) :
    ((noiseIdx.enum.map fun p =>
        buildClusterFrom pow10 dets [p.2] (k + p.1)).map
      fun c => c.detectionIndices.count i).sum = noiseIdx.count i := by
  rw [List.map_map]
  rw [show ((fun c => c.detectionIndices.count i) ∘ fun p : ℕ × ℕ =>
      buildClusterFrom pow10 dets [p.2] (k + p.1))
      = (fun j => List.count i [j]) ∘ Prod.snd from rfl]
  rw [← List.map_map, List.enum_map_snd]
  induction noiseIdx with
  | nil => rfl
  | cons a l ih =>
    rw [List.map_cons, List.sum_cons, ih]
    simp only [List.count_cons, List.count_nil]
    omega

theorem dbscan_cluster_partition (pow10 : ℚ → ℚ) (cfg : DBScanConfig)
    (dets : List Detection) :
    ClustererPartition dets.length
      (DBScanClusterer.cluster pow10 cfg dets) := by
  unfold DBScanClusterer.cluster
  by_cases hemp : dets.isEmpty
  · rw [if_pos hemp]
    have hn : dets.length = 0 := List.isEmpty_iff_length_eq_zero.mp hemp
    exact ⟨fun i hi => absurd hi (by omega),
      fun c hc => absurd hc (List.not_mem_nil c),
      fun c hc => absurd hc (List.not_mem_nil c)⟩
  · rw [if_neg hemp]
    dsimp only
    obtain ⟨g1, g2, g3, g4⟩ := mainLoop_spec cfg dets (List.range dets.length)
      (List.replicate dets.length (-1)) 0
    set n := dets.length with hn
    set r := DBScanClusterer.mainLoop cfg dets (List.range n)
      (List.replicate n (-1)) 0 with hr
    have hval : ∀ i, i < n → r.1.getD i 0 = -2
        ∨ ∃ lab, lab < r.2 ∧ r.1.getD i 0 = (lab : ℤ) := by
      intro i hi
      have h4 := g4 i (List.mem_range.mpr hi)
        (by rw [List.length_replicate]; exact hi)
      rcases g3 i with h | h | ⟨lab, _, hlt, h⟩
      · rw [getD_replicate_neg_one n i hi] at h
        exact absurd h h4
      · exact Or.inl h
      · exact Or.inr ⟨lab, hlt, h⟩
    refine ⟨fun i hi => ?_, fun c hc => ?_, fun c hc => ?_⟩
    · rw [List.map_append, List.sum_append, List.map_map]
      rw [show ((fun c => c.detectionIndices.count i) ∘ fun lab =>
          buildClusterFrom pow10 dets
            ((List.range n).filter fun j => r.1.getD j 0 = Int.ofNat lab) lab)
          = fun lab => ((List.range n).filter fun j =>
              decide (r.1.getD j 0 = Int.ofNat lab)).count i from rfl]
      rw [noise_count_sum]
      rcases hval i hi with hv | ⟨lab0, hlab0, hv⟩
      · rw [sum_map_range_zero _ _ (fun lab _ => by
          rw [count_filter_range]
          rw [if_neg]
          rintro ⟨_, hd⟩
          rw [decide_eq_true_eq, hv] at hd
          simp only [Int.ofNat_eq_coe] at hd
          omega)]
        rw [count_filter_range, if_pos ⟨hi, by rw [decide_eq_true_eq, hv]⟩]
      · rw [sum_map_range_single _ lab0 (fun lab hlab => by
          rw [count_filter_range]
          rw [if_neg]
          rintro ⟨_, hd⟩
          rw [decide_eq_true_eq, hv] at hd
          simp only [Int.ofNat_eq_coe] at hd
          omega) r.2]
        rw [if_pos hlab0]
        rw [count_filter_range, if_pos ⟨hi, by
          rw [decide_eq_true_eq, hv]
          exact Int.ofNat_eq_coe.symm⟩]
        rw [count_filter_range, if_neg]
        rintro ⟨_, hd⟩
        rw [decide_eq_true_eq, hv] at hd
        omega
    · rw [List.mem_append] at hc
      rcases hc with hc | hc
      · rw [List.mem_map] at hc
        obtain ⟨lab, _, hc⟩ := hc
        subst hc
        intro j hj
        rw [buildClusterFrom_detectionIndices] at hj
        rw [List.mem_filter, List.mem_range] at hj
        exact hj.1
      · rw [List.mem_map] at hc
        obtain ⟨p, hp, hc⟩ := hc
        subst hc
        intro j hj
        rw [buildClusterFrom_detectionIndices, List.mem_singleton] at hj
        subst hj
        have hmem := List.mem_enumFrom hp
        have hp2 : p.2 ∈ ((List.range n).filter fun i =>
            r.1.getD i 0 = -2) := by
          rw [hmem.2.2]
          exact List.getElem_mem _
        rw [List.mem_filter, List.mem_range] at hp2
        exact hp2.1
    · rw [List.mem_append] at hc
      rcases hc with hc | hc <;> rw [List.mem_map] at hc
      · obtain ⟨lab, _, hc⟩ := hc
        subst hc
        exact buildClusterFrom_numDetections pow10 dets _ lab
      · obtain ⟨p, _, hc⟩ := hc
        subst hc
        exact buildClusterFrom_numDetections pow10 dets _ _

theorem insertByRange_perm (dets : List Detection) (a : ℕ) (l : List ℕ) :
    (RangeClusterer.insertByRange dets a l).Perm (a :: l) := by
  induction l with
  | nil => exact List.Perm.refl _
  | cons b l ih =>
    unfold RangeClusterer.insertByRange
    split_ifs with h
    · exact List.Perm.refl _
    · exact (List.Perm.cons b ih).trans (List.Perm.swap a b l)

theorem sortIdx_perm (dets : List Detection) :
    (RangeClusterer.sortIdx dets).Perm (List.range dets.length) := by
  unfold RangeClusterer.sortIdx
  generalize List.range dets.length = L
  induction L with
  | nil => exact List.Perm.refl _
  | cons a l ih =>
    rw [List.foldr_cons]
    exact (insertByRange_perm dets a _).trans (List.Perm.cons a ih)

theorem sweep_spec (cfg : RangeBasedConfig) (dets : List Detection) (i : ℕ) :
    ∀ (L : List ℕ) (A : List Bool), (∀ x ∈ L, x < A.length) →
    (RangeClusterer.sweep cfg dets i L A).2.length = A.length
    ∧ (∀ x : ℕ, (RangeClusterer.sweep cfg dets i L A).2.getD x false = true ↔
        (A.getD x false = true ∨ x ∈ (RangeClusterer.sweep cfg dets i L A).1))
    ∧ (RangeClusterer.sweep cfg dets i L A).1.Sublist L
    ∧ (∀ x ∈ (RangeClusterer.sweep cfg dets i L A).1,
        A.getD x false = false) := by
  intro L
  induction L with
  | nil =>
    intro A _
    exact ⟨rfl, fun x => ⟨fun h => Or.inl h, fun h => by
      rcases h with h | h
      · exact h
      · exact absurd h (List.not_mem_nil x)⟩,
      List.Sublist.refl [], fun x hx => absurd hx (List.not_mem_nil x)⟩
  | cons j rest ih =>
    intro A hL
    rw [RangeClusterer.sweep]
    by_cases hj : A.getD j false = true
    · rw [if_pos hj]
      obtain ⟨s1, s2, s3, s4⟩ := ih A (fun x hx => hL x (List.mem_cons_of_mem j hx))
      exact ⟨s1, s2, s3.cons j, s4⟩
    · rw [if_neg hj]
      rw [Bool.not_eq_true] at hj
      by_cases hbrk : (dets.getD j defaultDetection).range -
          (dets.getD i defaultDetection).range > cfg.rangeGateSize
      · rw [if_pos hbrk]
        exact ⟨rfl, fun x => ⟨fun h => Or.inl h, fun h => by
          rcases h with h | h
          · exact h
          · exact absurd h (List.not_mem_nil x)⟩,
          List.nil_sublist _, fun x hx => absurd hx (List.not_mem_nil x)⟩
      · rw [if_neg hbrk]
        have hjlen : j < A.length := hL j (List.mem_cons_self j rest)
        by_cases hg : RangeClusterer.inGate cfg (dets.getD i defaultDetection)
            (dets.getD j defaultDetection) = true
        · rw [if_pos hg]
          dsimp only
          obtain ⟨s1, s2, s3, s4⟩ := ih (A.set j true)
            (fun x hx => by
              rw [List.length_set]
              exact hL x (List.mem_cons_of_mem j hx))
          refine ⟨by rw [s1, List.length_set], fun x => ?_, s3.cons₂ j,
            fun x hx => ?_⟩
          · rw [s2 x]
            constructor
            · rintro (h | h)
              · by_cases hxj : j = x
                · subst hxj
                  exact Or.inr (List.mem_cons_self j _)
                · rw [getD_set_ne A j x true false hxj] at h
                  exact Or.inl h
              · exact Or.inr (List.mem_cons_of_mem j h)
            · rintro (h | h)
              · left
                by_cases hxj : j = x
                · subst hxj
                  exact getD_set_self A j true false hjlen
                · rw [getD_set_ne A j x true false hxj]
                  exact h
              · rcases List.mem_cons.mp h with h | h
                · subst h
                  exact Or.inl (getD_set_self A x true false hjlen)
                · exact Or.inr h
          · rcases List.mem_cons.mp hx with h | h
            · subst h
              exact hj
            · have h4 := s4 x h
              by_cases hxj : j = x
              · subst hxj
                rw [getD_set_self A j true false hjlen] at h4
                cases h4
              · rw [getD_set_ne A j x true false hxj] at h4
                exact h4
        · rw [if_neg hg]
          obtain ⟨s1, s2, s3, s4⟩ := ih A
            (fun x hx => hL x (List.mem_cons_of_mem j hx))
          exact ⟨s1, s2, s3.cons j, s4⟩

theorem outer_spec (pow10 : ℚ → ℚ) (cfg : RangeBasedConfig)
    (dets : List Detection) (n : ℕ) :
    ∀ (L : List ℕ) (A : List Bool) (cid : ℕ),
    A.length = n → (∀ j ∈ L, j < n) → L.Nodup →
    (∀ j, j < n → A.getD j false = false → j ∈ L) →
    (∀ j, j < n →
      ((RangeClusterer.outer pow10 cfg dets L A cid).map
        fun c => c.detectionIndices.count j).sum
      = if A.getD j false = false then 1 else 0)
    ∧ (∀ c ∈ RangeClusterer.outer pow10 cfg dets L A cid,
        ∀ j ∈ c.detectionIndices, j < n)
    ∧ (∀ c ∈ RangeClusterer.outer pow10 cfg dets L A cid,
        c.numDetections = c.detectionIndices.length) := by
  intro L
  induction L with
  | nil =>
    intro A cid hAlen hLn hnd hcover
    refine ⟨fun j hj => ?_, fun c hc => absurd hc (List.not_mem_nil c),
      fun c hc => absurd hc (List.not_mem_nil c)⟩
    rw [RangeClusterer.outer]
    by_cases hA : A.getD j false = false
    · exact absurd (hcover j hj hA) (List.not_mem_nil j)
    · rw [if_neg hA]
      rfl
  | cons i rest ih =>
    intro A cid hAlen hLn hnd hcover
    rw [RangeClusterer.outer]
    by_cases hi : A.getD i false = true
    · rw [if_pos hi]
      refine ih A cid hAlen (fun j hj => hLn j (List.mem_cons_of_mem i hj))
        hnd.of_cons (fun j hj hA => ?_)
      rcases List.mem_cons.mp (hcover j hj hA) with h | h
      · subst h
        rw [hi] at hA
        cases hA
      · exact h
    · rw [if_neg hi]
      dsimp only
      rw [Bool.not_eq_true] at hi
      have hin : i < n := hLn i (List.mem_cons_self i rest)
      have hilen : i < A.length := by rw [hAlen]; exact hin
      obtain ⟨s1, s2, s3, s4⟩ := sweep_spec cfg dets i rest (A.set i true)
        (fun x hx => by
          rw [List.length_set, hAlen]
          exact hLn x (List.mem_cons_of_mem i hx))
      set r := RangeClusterer.sweep cfg dets i rest (A.set i true) with hrdef
      have hnotmem : i ∉ r.1 := by
        intro hmem
        have := s4 i hmem
        rw [getD_set_self A i true false hilen] at this
        cases this
      have hndg : (i :: r.1).Nodup := by
        rw [List.nodup_cons]
        exact ⟨hnotmem, s3.nodup hnd.of_cons⟩
      have hr1sub : ∀ x ∈ r.1, x ∈ rest := fun x hx => s3.mem hx
      have hr1A : ∀ x ∈ r.1, A.getD x false = false ∧ x ≠ i := by
        intro x hx
        have h4 := s4 x hx
        by_cases hxi : i = x
        · subst hxi
          rw [getD_set_self A i true false hilen] at h4
          cases h4
        · rw [getD_set_ne A i x true false hxi] at h4
          exact ⟨h4, fun h => hxi h.symm⟩
      obtain ⟨g1, g2, g3⟩ := ih r.2 (cid + 1)
        (by rw [s1, List.length_set, hAlen])
        (fun j hj => hLn j (List.mem_cons_of_mem i hj))
        hnd.of_cons
        (fun j hj hA => by
          have hji : i ≠ j := by
            intro h
            subst h
            have hset : r.2.getD i false = true :=
              (s2 i).mpr (Or.inl (getD_set_self A i true false hilen))
            rw [hA] at hset
            cases hset
          have hAj : A.getD j false = false := by
            have hnt : ¬ r.2.getD j false = true := by
              rw [hA]
              exact Bool.false_ne_true
            rw [s2 j] at hnt
            push_neg at hnt
            have h1 := hnt.1
            rw [getD_set_ne A i j true false hji] at h1
            exact Bool.eq_false_iff.mpr h1
          rcases List.mem_cons.mp (hcover j hj hAj) with h | h
          · exact absurd h.symm hji
          · exact h)
      refine ⟨fun j hj => ?_, fun c hc => ?_, fun c hc => ?_⟩
      · rw [List.map_cons, List.sum_cons, g1 j hj,
          buildClusterFrom_detectionIndices]
        by_cases hA : A.getD j false = true
        · have hji : j ≠ i := by
            intro h
            subst h
            rw [hi] at hA
            cases hA
          have hnotg : j ∉ i :: r.1 := by
            intro h
            rcases List.mem_cons.mp h with h | h
            · exact hji h
            · rw [(hr1A j h).1] at hA
              cases hA
          have hc0 : (i :: r.1).count j = 0 := List.count_eq_zero.mpr hnotg
          have hr2 : r.2.getD j false = true :=
            (s2 j).mpr (Or.inl (by
              rw [getD_set_ne A i j true false (fun h => hji h.symm)]
              exact hA))
          rw [hc0, hr2, hA]
          decide
        · rw [Bool.not_eq_true] at hA
          by_cases hmem : j ∈ i :: r.1
          · have hc1 : (i :: r.1).count j = 1 :=
              List.count_eq_one_of_mem hndg hmem
            have hr2 : r.2.getD j false = true := by
              rcases List.mem_cons.mp hmem with h | h
              · subst h
                exact (s2 j).mpr (Or.inl (getD_set_self A j true false
                  (by rw [hAlen]; exact hj)))
              · exact (s2 j).mpr (Or.inr h)
            rw [hc1, hr2, hA]
            decide
          · have hc0 : (i :: r.1).count j = 0 := List.count_eq_zero.mpr hmem
            have hji : i ≠ j := by
              intro h
              exact hmem (h ▸ List.mem_cons_self i r.1)
            have hr2 : r.2.getD j false = false := by
              rw [← Bool.not_eq_true, s2 j]
              push_neg
              refine ⟨?_, fun h => hmem (List.mem_cons_of_mem i h)⟩
              rw [getD_set_ne A i j true false hji, hA]
              exact Bool.false_ne_true
            rw [hc0, hr2, hA]
            decide
      · rcases List.mem_cons.mp hc with h | h
        · subst h
          intro j hj
          rw [buildClusterFrom_detectionIndices] at hj
          rcases List.mem_cons.mp hj with h | h
          · subst h
            exact hin
          · exact hLn j (List.mem_cons_of_mem i (hr1sub j h))
        · exact g2 c h
      · rcases List.mem_cons.mp hc with h | h
        · subst h
          exact buildClusterFrom_numDetections pow10 dets _ _
        · exact g3 c h

theorem getD_replicate_false (n i : ℕ) :
    (List.replicate n false).getD i false = false := by
  simp [List.getD, List.getElem?_replicate]
  split_ifs <;> rfl

theorem range_cluster_partition (pow10 : ℚ → ℚ) (cfg : RangeBasedConfig)
    (dets : List Detection) :
    ClustererPartition dets.length
      (RangeClusterer.cluster pow10 cfg dets) := by
  unfold RangeClusterer.cluster
  by_cases hemp : dets.isEmpty
  · rw [if_pos hemp]
    have hn : dets.length = 0 := List.isEmpty_iff_length_eq_zero.mp hemp
    exact ⟨fun i hi => absurd hi (by omega),
      fun c hc => absurd hc (List.not_mem_nil c),
      fun c hc => absurd hc (List.not_mem_nil c)⟩
  · rw [if_neg hemp]
    have hperm := sortIdx_perm dets
    obtain ⟨g1, g2, g3⟩ := outer_spec pow10 cfg dets dets.length
      (RangeClusterer.sortIdx dets) (List.replicate dets.length false) 0
      (by simp)
      (fun j hj => List.mem_range.mp (hperm.mem_iff.mp hj))
      (hperm.nodup_iff.mpr (List.nodup_range _))
      (fun j hj _ => hperm.mem_iff.mpr (List.mem_range.mpr hj))
    refine ⟨fun i hi => ?_, g2, g3⟩
    rw [g1 i hi, if_pos (getD_replicate_false dets.length i)]

/-- C10: the output of both clusterers is a partition of the input
detections: every index below the input length appears in the
detectionIndices of exactly one output cluster (DBSCAN emits each noise
point as its own singleton cluster; the range clusterer assigns every
detection to exactly one greedy group), all stored indices are in range,
and each cluster's numDetections equals the length of its
detectionIndices. -/
theorem clusterer_output_partition (pow10 : ℚ → ℚ) (dcfg : DBScanConfig)
    (rcfg : RangeBasedConfig) (dets : List Detection) :
    ClustererPartition dets.length (DBScanClusterer.cluster pow10 dcfg dets)
    ∧ ClustererPartition dets.length
      (RangeClusterer.cluster pow10 rcfg dets) :=
  ⟨dbscan_cluster_partition pow10 dcfg dets,
   range_cluster_partition pow10 rcfg dets⟩

end CUAS
